import Mathlib

/-!
# Sensor data visualizers: the synchronisation buffer of `load_sensor_data`

Shallow embedding of the global buffer state and of `load_sensor_data` of
`sensor_gsl_visualizer.c` (namespace `Gsl`) and of `sensor_visualizer.c`
(namespace `Vis`).

Modelling conventions.

* `timestamp` is a C `double` obtained from `strftime('%s', ...)`, i.e. a whole
  number of seconds; it is modelled by `Int` with the usual order (a `NULL`
  column reads as `0`).
* The `float` channels are carried around and never computed on by
  `load_sensor_data`; they are modelled by exact rationals.
* The array `readings[MAX_READINGS]` is a `List` whose length is the array size.
  Every array read and write is bounds-checked: an access outside the array
  (undefined behaviour in C) makes the embedded function return `none`.
* `reading_count` is a C `int`; it is modelled by `Nat`.  The only decrement is
  guarded by `reading_count >= MAX_READINGS`.
* The SQLite statement is modelled by what it delivers: the result code of
  `sqlite3_prepare_v2`, the rows for which `sqlite3_step` returns `SQLITE_ROW`,
  and the code returned by the step after the last row.
* `printf`/`fprintf` calls are not modelled.  The local counter `new_readings`
  is modelled by the list of the rows it counts.
-/

/-- The C struct `SensorReading`. -/
structure SensorReading where
  timestamp : Int
  temperature : ℚ
  humidity : ℚ
  illuminance : ℚ
deriving DecidableEq

/-- The global variables `readings`, `reading_count`, `last_reading_timestamp`. -/
structure State where
  readings : List SensorReading
  reading_count : Nat
  last_reading_timestamp : Int
deriving DecidableEq

/-- SQLite result code `SQLITE_OK`. -/
def SQLITE_OK : Int := 0

/-- SQLite result code `SQLITE_ROW`. -/
def SQLITE_ROW : Int := 100

/-- SQLite result code `SQLITE_DONE`. -/
def SQLITE_DONE : Int := 101

/-- What the store answers during one call of `load_sensor_data`.

* `probe`: the value read by the `MAX(timestamp)` query, `none` when its prepare
  fails or its step does not return a row;
* `prepare_rc`: result code of `sqlite3_prepare_v2` for the fetch query;
* `rows`: the rows delivered by successive `sqlite3_step` calls, in order;
* `final_rc`: the code returned by the step after the last row
  (`SQLITE_DONE`, or an error code). -/
structure Fetch where
  probe : Option Int
  prepare_rc : Int
  rows : List SensorReading
  final_rc : Int
deriving DecidableEq

/-- A zero-initialised `SensorReading` (C static storage). -/
def SensorReading.zero : SensorReading := ⟨0, 0, 0, 0⟩

/-- The globals at program start: a zeroed array of `cap` slots, no reading,
watermark `0`. -/
def State.init (cap : Nat) : State :=
  ⟨List.replicate cap SensorReading.zero, 0, 0⟩

/-- The readings the buffer currently holds: `readings[0 .. reading_count-1]`. -/
def State.items (s : State) : List SensorReading :=
  s.readings.take s.reading_count

/-- Checked array write `a[i] = x`. -/
def wr (a : List SensorReading) (i : Nat) (x : SensorReading) :
    Option (List SensorReading) :=
  if i < a.length then some (a.set i x) else none

/-- The loop `for (i = i0; i < i0 + n; i++) readings[i-1] = readings[i];`
with `n` iterations left. -/
def shift_from : Nat → Nat → List SensorReading → Option (List SensorReading)
  | 0, _, a => some a
  | n + 1, i, a =>
    match a[i]? with
    | none => none
    | some x =>
      match wr a (i - 1) x with
      | none => none
      | some a1 => shift_from n (i + 1) a1

/-- The eviction block
`for (int i = 1; i < reading_count; i++) readings[i-1] = readings[i]; reading_count--;`. -/
def evict (s : State) : Option State :=
  match shift_from (s.reading_count - 1) 1 s.readings with
  | none => none
  | some a => some { s with readings := a, reading_count := s.reading_count - 1 }

/-- The swap loop of the initial load,
`for (i = i0; i < i0 + n; i++) swap(readings[i], readings[count-1-i])`,
with `n` iterations left. -/
def reverse_from (count : Nat) : Nat → Nat → List SensorReading →
    Option (List SensorReading)
  | 0, _, a => some a
  | n + 1, i, a =>
    match a[i]?, a[count - 1 - i]? with
    | some temp, some x =>
      match wr a i x with
      | none => none
      | some a1 =>
        match wr a1 (count - 1 - i) temp with
        | none => none
        | some a2 => reverse_from count n (i + 1) a2
    | _, _ => none

/-- Strictly ascending timestamps: every reading is older than all later ones. -/
def StrictAsc (l : List SensorReading) : Prop :=
  l.Pairwise (fun a b => a.timestamp < b.timestamp)

/-- Strictly descending timestamps: every reading is newer than all later ones. -/
def StrictDesc (l : List SensorReading) : Prop :=
  l.Pairwise (fun a b => b.timestamp < a.timestamp)

instance (l : List SensorReading) : Decidable (StrictAsc l) := by
  unfold StrictAsc; infer_instance

instance (l : List SensorReading) : Decidable (StrictDesc l) := by
  unfold StrictDesc; infer_instance

/-- Call `step` `n` times in a row on the successive states, stopping at the
first call that fails. -/
def replay (step : State → Option State) : Nat → State → Option State
  | 0, s => some s
  | n + 1, s =>
    match step s with
    | none => none
    | some s1 => replay step n s1

/-- A reading with timestamp `t` and all channels `0`. -/
def rd (t : Int) : SensorReading := ⟨t, 0, 0, 0⟩

/-- The readings with timestamps `1, 2, ..., n`, in this order. -/
def ramp (n : Nat) : List SensorReading :=
  (List.range n).map fun (i : Nat) => rd (Int.ofNat i + 1)

namespace Gsl

/-- `#define MAX_READINGS 500` of `sensor_gsl_visualizer.c`. -/
def MAX_READINGS : Nat := 500

/-- The append loop of `sensor_gsl_visualizer.c` (lines 171-192), over the rows
still to be delivered.  Returns the state and the rows counted by
`new_readings`. -/
def append_loop (cap : Nat) : List SensorReading → State →
    Option (State × List SensorReading)
  | [], s => some (s, [])
  | row :: rest, s =>
    if s.reading_count < cap then
      if row.timestamp ≤ s.last_reading_timestamp then append_loop cap rest s
      else
        match (if s.reading_count ≥ cap then evict s else some s) with
        | none => none
        | some s1 =>
          match wr s1.readings s1.reading_count row with
          | none => none
          | some a =>
            match append_loop cap rest
                ⟨a, s1.reading_count + 1, row.timestamp⟩ with
            | none => none
            | some (s2, acc) => some (s2, row :: acc)
    else some (s, [])

/-- The fill loop of the initial load (lines 196-207). -/
def initial_loop (cap : Nat) : List SensorReading → State → Option State
  | [], s => some s
  | row :: rest, s =>
    if s.reading_count < cap then
      match wr s.readings s.reading_count row with
      | none => none
      | some a =>
        initial_loop cap rest
          ⟨a, s.reading_count + 1,
            if row.timestamp > s.last_reading_timestamp then row.timestamp
            else s.last_reading_timestamp⟩
    else some s

/-- The initial-load branch (lines 194-219): fill, then reverse in place. -/
def initial_load (cap : Nat) (rows : List SensorReading) (s : State) :
    Option State :=
  match initial_loop cap rows { s with reading_count := 0 } with
  | none => none
  | some s1 =>
    if s1.reading_count > 0 then
      match reverse_from s1.reading_count (s1.reading_count / 2) 0 s1.readings with
      | none => none
      | some a => some { s1 with readings := a }
    else some s1

/-- The function `load_sensor_data` of `sensor_gsl_visualizer.c`, with the array
size `cap`; returns the new globals and the rows counted by `new_readings`. -/
def load_sensor_data_full (cap : Nat) (s : State) (f : Fetch) :
    Option (State × List SensorReading) :=
  let latest_db_timestamp : Int := f.probe.getD 0
  if latest_db_timestamp ≤ s.last_reading_timestamp then some (s, [])
  else if f.prepare_rc ≠ SQLITE_OK then some (s, [])
  else if s.reading_count > 0 then append_loop cap f.rows s
  else
    match initial_load cap f.rows s with
    | none => none
    | some s1 => some (s1, [])

/-- The globals after `load_sensor_data`. -/
def load_sensor_data (cap : Nat) (s : State) (f : Fetch) : Option State :=
  (load_sensor_data_full cap s f).map Prod.fst

/-- The states the globals can be in: the start state and every state a call of
`load_sensor_data` produces from such a state, whatever the store answers. -/
inductive Reachable (cap : Nat) : State → Prop
  | init : Reachable cap (State.init cap)
  | step {s s1 : State} (f : Fetch) :
      Reachable cap s → load_sensor_data cap s f = some s1 → Reachable cap s1

/-- The states reached when every call that takes the initial-load branch
(`reading_count == 0`) is answered with rows in strictly descending time order,
as the query `ORDER BY timestamp DESC` delivers them; the calls of the append
branch are answered with any rows. -/
inductive ReachableDesc (cap : Nat) : State → Prop
  | init : ReachableDesc cap (State.init cap)
  | step {s s1 : State} (f : Fetch) :
      ReachableDesc cap s → (s.reading_count = 0 → StrictDesc f.rows) →
      load_sensor_data cap s f = some s1 → ReachableDesc cap s1

end Gsl

namespace Vis

/-- `#define MAX_READINGS 100` of `sensor_visualizer.c`. -/
def MAX_READINGS : Nat := 100

/-- The append loop of `sensor_visualizer.c` (lines 77-109), over the rows still
to be delivered.  Returns the state and the rows counted by `new_readings`. -/
def append_loop (cap : Nat) : List SensorReading → State →
    Option (State × List SensorReading)
  | [], s => some (s, [])
  | row :: rest, s =>
    if row.timestamp ≤ s.last_reading_timestamp then append_loop cap rest s
    else
      match (if s.reading_count ≥ cap then evict s else some s) with
      | none => none
      | some s1 =>
        match wr s1.readings s1.reading_count row with
        | none => none
        | some a =>
          match append_loop cap rest
              ⟨a, s1.reading_count + 1, s1.last_reading_timestamp⟩ with
          | none => none
          | some (s2, acc) => some (s2, row :: acc)

/-- The fill loop of the initial load (lines 113-119). -/
def initial_loop (cap : Nat) : List SensorReading → State → Option State
  | [], s => some s
  | row :: rest, s =>
    if s.reading_count < cap then
      match wr s.readings s.reading_count row with
      | none => none
      | some a =>
        initial_loop cap rest ⟨a, s.reading_count + 1, s.last_reading_timestamp⟩
    else some s

/-- The closing update (lines 130-132):
`if (reading_count > 0) last_reading_timestamp = readings[reading_count-1].timestamp;`. -/
def update_last (s : State) : Option State :=
  if s.reading_count > 0 then
    match s.readings[s.reading_count - 1]? with
    | none => none
    | some r => some { s with last_reading_timestamp := r.timestamp }
  else some s

/-- The function `load_sensor_data` of `sensor_visualizer.c`, with the array size
`cap`; returns the new globals and the rows counted by `new_readings`. -/
def load_sensor_data_full (cap : Nat) (s : State) (f : Fetch) :
    Option (State × List SensorReading) :=
  let latest_db_timestamp : Int := f.probe.getD 0
  if latest_db_timestamp ≤ s.last_reading_timestamp then some (s, [])
  else if f.prepare_rc ≠ SQLITE_OK then some (s, [])
  else if s.reading_count > 0 then
    match append_loop cap f.rows s with
    | none => none
    | some (s1, acc) =>
      match update_last s1 with
      | none => none
      | some s2 => some (s2, acc)
  else
    match initial_loop cap f.rows { s with reading_count := 0 } with
    | none => none
    | some s1 =>
      match update_last s1 with
      | none => none
      | some s2 => some (s2, [])

/-- The globals after `load_sensor_data`. -/
def load_sensor_data (cap : Nat) (s : State) (f : Fetch) : Option State :=
  (load_sensor_data_full cap s f).map Prod.fst

/-- The states the globals can be in: the start state and every state a call of
`load_sensor_data` produces from such a state, whatever the store answers. -/
inductive Reachable (cap : Nat) : State → Prop
  | init : Reachable cap (State.init cap)
  | step {s s1 : State} (f : Fetch) :
      Reachable cap s → load_sensor_data cap s f = some s1 → Reachable cap s1

end Vis

/-! ## `draw_graph` of `sensor_gsl_visualizer.c`: moving average and median

The `float` arithmetic is taken as exact: values are rationals.  `values` is the
array the caller passes, `moving_avg` has `MAX_READINGS` slots, `sorted_values`
has `count` slots; every access is bounds-checked as above. -/

/-- Checked read `values[k]` at an `int` index. -/
def rdq (values : List ℚ) (k : Int) : Option ℚ :=
  if 0 ≤ k then values[k.toNat]? else none

/-- Checked write `a[i] = x` on an array of `float`. -/
def wrq (a : List ℚ) (i : Nat) (x : ℚ) : Option (List ℚ) :=
  if i < a.length then some (a.set i x) else none

/-- The inner loop `for (j = j0; ...; j++) sum += values[i + j];` with `n`
iterations left. -/
def window_sum (values : List ℚ) (i : Nat) : Nat → Int → ℚ → Option ℚ
  | 0, _, sum => some sum
  | n + 1, j, sum =>
    match rdq values (Int.ofNat i + j) with
    | none => none
    | some v => window_sum values i n (j + 1) (sum + v)

/-- The outer loop `for (i = i0; ...; i++) { sum the window; moving_avg[i] = sum / w; }`
with `n` iterations left.  The inner loop runs `j` from `-(w/2)` to `w/2`, that
is `2 * (w/2) + 1` times.  Returns `moving_avg` and the indices assigned, in
order. -/
def moving_avg_loop (w : Nat) (values : List ℚ) :
    Nat → Nat → List ℚ → Option (List ℚ × List Nat)
  | 0, _, ma => some (ma, [])
  | n + 1, i, ma =>
    match window_sum values i (2 * (w / 2) + 1) (-Int.ofNat (w / 2)) 0 with
    | none => none
    | some sum =>
      match wrq ma i (sum / (w : ℚ)) with
      | none => none
      | some ma1 =>
        match moving_avg_loop w values n (i + 1) ma1 with
        | none => none
        | some (ma2, idx) => some (ma2, i :: idx)

/-- The moving-average block of `draw_graph` (lines 287-297) with window width
`w` and `cap` slots in `moving_avg`: the array is zero-initialised, and when
`count >= w` the outer loop runs `i` from `w/2` while `i < count - w/2`. -/
def moving_average (w cap : Nat) (values : List ℚ) (count : Nat) :
    Option (List ℚ × List Nat) :=
  if count ≥ w then
    moving_avg_loop w values (count - w / 2 - w / 2) (w / 2) (List.replicate cap 0)
  else some (List.replicate cap 0, [])

/-- The drawing loop of `draw_graph` (lines 319-343): the indices `i` of
`for (i = 0; i < count; i++)` that pass the guard
`i >= w/2 && i < count - w/2` (C `int` arithmetic), where `moving_avg[i]` is
read. -/
def drawn_avg_indices (w count : Nat) : List Nat :=
  (List.range count).filter fun (i : Nat) =>
    decide (Int.ofNat i ≥ Int.ofNat (w / 2) ∧
      Int.ofNat i < Int.ofNat count - Int.ofNat (w / 2))

/-- The copy loop `for (i = i0; ...; i++) sorted_values[i] = values[i];` with `n`
iterations left. -/
def copy_loop (values : List ℚ) : Nat → Nat → List ℚ → Option (List ℚ)
  | 0, _, sv => some sv
  | n + 1, i, sv =>
    match values[i]? with
    | none => none
    | some v =>
      match wrq sv i v with
      | none => none
      | some sv1 => copy_loop values n (i + 1) sv1

/-- Modelled from the spec: the GSL library function `gsl_sort_float(data, 1, n)`,
which is not part of the repository sources.  The spec says "sort a copy of the
values ascending": the first `n` entries of `data` are put in ascending order,
the rest is left alone. -/
def gsl_sort_float (data : List ℚ) (n : Nat) : List ℚ :=
  (data.take n).insertionSort (fun a b => a ≤ b) ++ data.drop n

/-- Modelled from the spec: the GSL library function
`gsl_stats_float_median_from_sorted_data(sorted, 1, n)`, which is not part of
the repository sources.  The spec says "take the middle element (odd count) or
the average of the two middle elements (even count)". -/
def gsl_stats_float_median_from_sorted_data (sorted : List ℚ) (n : Nat) : Option ℚ :=
  if n % 2 = 1 then sorted[n / 2]?
  else
    match sorted[n / 2 - 1]?, sorted[n / 2]? with
    | some a, some b => some ((a + b) / 2)
    | _, _ => none

/-- The median block of `draw_graph` (lines 305-310): `buf` is the block
returned by `malloc(count * sizeof(float))`, whose contents are arbitrary.
Returns the `values` array as it is after the block, and the median. -/
def draw_graph_median (values : List ℚ) (count : Nat) (buf : List ℚ) :
    Option (List ℚ × ℚ) :=
  match copy_loop values count 0 buf with
  | none => none
  | some sorted_values =>
    match gsl_stats_float_median_from_sorted_data
        (gsl_sort_float sorted_values count) count with
    | none => none
    | some median => some (values, median)

namespace Gsl

/-- `#define MOVING_AVG_WINDOW 7` of `sensor_gsl_visualizer.c`. -/
def MOVING_AVG_WINDOW : Nat := 7

/-- The append loop of `sensor_gsl_visualizer.c` with the eviction block
(lines 175-181) deleted; used to state that this block is never executed. -/
def append_loop_without_eviction (cap : Nat) : List SensorReading → State →
    Option (State × List SensorReading)
  | [], s => some (s, [])
  | row :: rest, s =>
    if s.reading_count < cap then
      if row.timestamp ≤ s.last_reading_timestamp then
        append_loop_without_eviction cap rest s
      else
        match wr s.readings s.reading_count row with
        | none => none
        | some a =>
          match append_loop_without_eviction cap rest
              ⟨a, s.reading_count + 1, row.timestamp⟩ with
          | none => none
          | some (s2, acc) => some (s2, row :: acc)
    else some (s, [])

end Gsl

/-! ## Array helpers -/


theorem wr_eq_some {a : List SensorReading} {i : Nat} {x : SensorReading}
    (h : i < a.length) : wr a i x = some (a.set i x) := by
  simp [wr, h]

theorem shift_from_spec (n : Nat) : ∀ (i : Nat) (a : List SensorReading),
    1 ≤ i → i + n ≤ a.length →
    ∃ b, shift_from n i a = some b ∧ b.length = a.length ∧
      ∀ k, b[k]? = if i - 1 ≤ k ∧ k < i - 1 + n then a[k + 1]? else a[k]? := by
  induction n with
  | zero =>
    intro i a _ _
    refine ⟨a, rfl, rfl, fun k => ?_⟩
    have : ¬ (i - 1 ≤ k ∧ k < i - 1 + 0) := by omega
    rw [if_neg this]
  | succ n ih =>
    intro i a hi hlen
    have hlt : i < a.length := by omega
    obtain ⟨b, hb, hbl, hbk⟩ := ih (i + 1) (a.set (i - 1) a[i]) (by omega)
      (by simp; omega)
    refine ⟨b, ?_, by simpa using hbl, ?_⟩
    · simp only [shift_from, List.getElem?_eq_getElem hlt]
      rw [wr_eq_some (by omega)]
      exact hb
    · intro k
      rw [hbk k]
      have e1 : i + 1 - 1 = i := by omega
      simp only [List.getElem?_set, e1]
      by_cases h1 : k = i - 1
      · have hk : k + 1 = i := by omega
        have c1 : ¬ (i ≤ k ∧ k < i + n) := by omega
        have c2 : i - 1 ≤ k ∧ k < i - 1 + (n + 1) := by omega
        have c3 : i - 1 < a.length := by omega
        rw [if_neg c1, if_pos c2, if_pos h1.symm, if_pos c3, hk,
          List.getElem?_eq_getElem hlt]
      · have n1 : ¬ (i - 1 = k) := fun h => h1 h.symm
        by_cases h3 : i ≤ k ∧ k < i + n
        · have c2 : i - 1 ≤ k ∧ k < i - 1 + (n + 1) := by omega
          have n2 : ¬ (i - 1 = k + 1) := by omega
          rw [if_pos h3, if_pos c2, if_neg n2]
        · have c2 : ¬ (i - 1 ≤ k ∧ k < i - 1 + (n + 1)) := by omega
          rw [if_neg h3, if_neg c2, if_neg n1]

theorem take_set_self (a : List SensorReading) (x : SensorReading) :
    ∀ c, c < a.length → (a.set c x).take (c + 1) = a.take c ++ [x] := by
  induction a with
  | nil => intro c h; simp at h
  | cons y t ih =>
    intro c h
    cases c with
    | zero => simp
    | succ c =>
      have h' : c < t.length := by simpa using h
      simp [ih c h']

theorem State.length_items (s : State) (h : s.reading_count ≤ s.readings.length) :
    s.items.length = s.reading_count := by
  simp [State.items, h]

theorem evict_spec (s : State) (h1 : 1 ≤ s.reading_count)
    (h2 : s.reading_count ≤ s.readings.length) :
    ∃ s', evict s = some s' ∧ s'.readings.length = s.readings.length ∧
      s'.reading_count = s.reading_count - 1 ∧
      s'.last_reading_timestamp = s.last_reading_timestamp ∧
      s'.items = s.items.drop 1 := by
  obtain ⟨b, hb, hbl, hbk⟩ := shift_from_spec (s.reading_count - 1) 1 s.readings
    (le_refl 1) (by omega)
  refine ⟨⟨b, s.reading_count - 1, s.last_reading_timestamp⟩, ?_, hbl, rfl, rfl, ?_⟩
  · simp [evict, hb]
  · apply List.ext_getElem?
    intro k
    simp only [State.items, List.getElem?_take, List.getElem?_drop, hbk]
    by_cases hk : k < s.reading_count - 1
    · have c1 : 1 - 1 ≤ k ∧ k < 1 - 1 + (s.reading_count - 1) := by omega
      have c2 : 1 + k < s.reading_count := by omega
      rw [if_pos hk, if_pos c1, if_pos c2, Nat.add_comm]
    · have c2 : ¬ (1 + k < s.reading_count) := by omega
      rw [if_neg hk, if_neg c2]

/-- One accepted row of the append loop: optional eviction, then the write. -/
theorem accept_step (cap : Nat) (hcap : 1 ≤ cap) (s : State) (row : SensorReading)
    (hlen : s.readings.length = cap) (hc : s.reading_count ≤ cap) :
    ∃ s1 a, (if s.reading_count ≥ cap then evict s else some s) = some s1 ∧
      wr s1.readings s1.reading_count row = some a ∧
      a.length = cap ∧ s1.reading_count + 1 ≤ cap ∧
      s1.last_reading_timestamp = s.last_reading_timestamp ∧
      s1.reading_count + 1 = min cap (s.reading_count + 1) ∧
      a.take (s1.reading_count + 1) =
        (s.items ++ [row]).drop (s.reading_count + 1 - cap) := by
  by_cases hfull : s.reading_count ≥ cap
  · have hceq : s.reading_count = cap := by omega
    obtain ⟨s1, h1, h1l, h1c, h1w, h1i⟩ := evict_spec s (by omega) (by omega)
    have hlt : s1.reading_count < s1.readings.length := by omega
    refine ⟨s1, s1.readings.set s1.reading_count row, by rw [if_pos hfull]; exact h1,
      wr_eq_some hlt, by simp; omega, by omega, h1w, ?_, ?_⟩
    · rw [h1c, hceq]; omega
    · rw [take_set_self _ _ _ hlt]
      have e : s1.readings.take s1.reading_count = s1.items := rfl
      have hil : s.items.length = s.reading_count := s.length_items (by omega)
      have e2 : s.reading_count + 1 - cap = 1 := by omega
      rw [e, h1i, e2, List.drop_append_of_le_length (by omega)]
  · have hlt : s.reading_count < s.readings.length := by omega
    refine ⟨s, s.readings.set s.reading_count row, by rw [if_neg hfull],
      wr_eq_some hlt, by simp; omega, by omega, rfl, ?_, ?_⟩
    · omega
    · rw [take_set_self _ _ _ hlt]
      have e2 : s.reading_count + 1 - cap = 0 := by omega
      rw [e2]; rfl

theorem drop_drop_tail (cap : Nat) (l acc : List SensorReading) (row : SensorReading)
    (c : Nat) (hl : l.length = c) :
    (((l ++ [row]).drop (c + 1 - cap)) ++ acc).drop
        (min cap (c + 1) + acc.length - cap) =
      (l ++ row :: acc).drop (c + (acc.length + 1) - cap) := by
  have hle : c + 1 - cap ≤ (l ++ [row]).length := by simp; omega
  rw [← List.drop_append_of_le_length hle, List.drop_drop]
  have e : l ++ [row] ++ acc = l ++ row :: acc := by simp
  rw [e]
  congr 1
  omega

namespace Vis

theorem vis_append_loop_spec (cap : Nat) (hcap : 1 ≤ cap) :
    ∀ (rows : List SensorReading) (s : State),
      s.readings.length = cap → s.reading_count ≤ cap →
      ∃ s1, append_loop cap rows s =
          some (s1, rows.filter fun r => decide (s.last_reading_timestamp < r.timestamp)) ∧
        s1.readings.length = cap ∧
        s1.last_reading_timestamp = s.last_reading_timestamp ∧
        s1.reading_count = min cap (s.reading_count +
          (rows.filter fun r => decide (s.last_reading_timestamp < r.timestamp)).length) ∧
        s1.items = (s.items ++
            rows.filter fun r => decide (s.last_reading_timestamp < r.timestamp)).drop
          (s.reading_count +
            (rows.filter fun r => decide (s.last_reading_timestamp < r.timestamp)).length
              - cap) := by
  intro rows
  induction rows with
  | nil =>
    intro s hlen hc
    refine ⟨s, rfl, hlen, rfl, by simp; omega, ?_⟩
    have e : s.reading_count - cap = 0 := by omega
    simp [e]
  | cons row rest ih =>
    intro s hlen hc
    by_cases hst : row.timestamp ≤ s.last_reading_timestamp
    · have hf : ¬ (s.last_reading_timestamp < row.timestamp) := by omega
      obtain ⟨s1, h1, h2, h3, h4, h5⟩ := ih s hlen hc
      refine ⟨s1, ?_, h2, h3, ?_, ?_⟩
      · simp only [append_loop, if_pos hst, List.filter_cons, hf, decide_False]
        simpa using h1
      · simpa [List.filter_cons, hf] using h4
      · simpa [List.filter_cons, hf] using h5
    · have hf : s.last_reading_timestamp < row.timestamp := by omega
      obtain ⟨s1, a, e1, e2, hal, hc1, hw1, hcm, hit⟩ := accept_step cap hcap s row hlen hc
      obtain ⟨s2, h1, h2, h3, h4, h5⟩ :=
        ih ⟨a, s1.reading_count + 1, s1.last_reading_timestamp⟩ hal hc1
      simp only [hw1] at h1 h3 h4 h5
      refine ⟨s2, ?_, h2, h3, ?_, ?_⟩
      · simp only [append_loop, if_neg hst, e1, e2, hw1, h1, List.filter_cons, hf,
          decide_True, if_true]
      · simp only [List.filter_cons, hf, decide_True, if_true, List.length_cons]
        rw [h4, hcm]; omega
      · simp only [List.filter_cons, hf, decide_True, if_true, List.length_cons]
        rw [h5]
        simp only [State.items]
        rw [hit, hcm]
        exact drop_drop_tail cap s.items _ row s.reading_count (s.length_items (by omega))

end Vis

theorem filter_newer_eq_self (w : Int) (rows : List SensorReading)
    (h : ∀ r ∈ rows, w < r.timestamp) :
    (rows.filter fun r => decide (w < r.timestamp)) = rows := by
  rw [List.filter_eq_self]
  intro r hr
  simpa using h r hr

theorem drop_length_pred (l : List SensorReading) (h : l ≠ []) :
    l.drop (l.length - 1) = [l.getLast h] := by
  have hpos : 0 < l.length := List.length_pos.mpr h
  have hlt : l.length - 1 < l.length := by omega
  rw [List.drop_eq_getElem_cons hlt, List.getLast_eq_getElem]
  have e : l.length - 1 + 1 = l.length := by omega
  rw [e, List.drop_length]

theorem update_last_spec (s : State) (h1 : 1 ≤ s.reading_count)
    (h2 : s.reading_count ≤ s.readings.length) :
    ∃ r, s.readings[s.reading_count - 1]? = some r ∧
      Vis.update_last s = some { s with last_reading_timestamp := r.timestamp } := by
  have hlt : s.reading_count - 1 < s.readings.length := by omega
  refine ⟨s.readings[s.reading_count - 1], List.getElem?_eq_getElem hlt, ?_⟩
  have hp : s.reading_count > 0 := by omega
  simp only [Vis.update_last, if_pos hp, List.getElem?_eq_getElem hlt]

/-- C2: in `sensor_visualizer.c`, with the array size `cap >= 1`, an append-branch
call on a buffer of `k >= 1` readings with a batch of `N` rows in strictly
increasing time order, all newer than the watermark, with `k + N > cap`, ends
with `reading_count == cap` and the buffer holding exactly the last `cap`
readings of the old items followed by the batch, in that order; with `cap = 1`
the buffer holds exactly the last row of the batch. -/
theorem Vis.append_keeps_last_capacity (cap : Nat) (s : State) (f : Fetch)
    (hcap : 1 ≤ cap) (hlen : s.readings.length = cap)
    (hk : 1 ≤ s.reading_count) (hkc : s.reading_count ≤ cap)
    (hprobe : s.last_reading_timestamp < f.probe.getD 0)
    (hprep : f.prepare_rc = SQLITE_OK)
    (_hasc : StrictAsc f.rows)
    (hnew : ∀ r ∈ f.rows, s.last_reading_timestamp < r.timestamp)
    (hover : s.reading_count + f.rows.length > cap) :
    ∃ s1, Vis.load_sensor_data cap s f = some s1 ∧
      s1.readings.length = cap ∧
      s1.reading_count = cap ∧
      s1.items = (s.items ++ f.rows).drop ((s.items ++ f.rows).length - cap) ∧
      (cap = 1 → ∃ h : f.rows ≠ [], s1.items = [f.rows.getLast h]) := by
  obtain ⟨s1, h1, h2, h3, h4, h5⟩ := Vis.vis_append_loop_spec cap hcap f.rows s hlen hkc
  rw [filter_newer_eq_self _ _ hnew] at h1 h4 h5
  have hc1 : s1.reading_count = cap := by rw [h4]; omega
  obtain ⟨r, hr, hu⟩ := update_last_spec s1 (by omega) (by omega)
  have hil : s.items.length = s.reading_count := s.length_items (by omega)
  have hitems : s1.items =
      (s.items ++ f.rows).drop ((s.items ++ f.rows).length - cap) := by
    rw [h5, List.length_append, hil]
  refine ⟨{ s1 with last_reading_timestamp := r.timestamp }, ?_, h2, hc1, hitems, ?_⟩
  · have hp : ¬ (f.probe.getD 0 ≤ s.last_reading_timestamp) := by omega
    have hpos : s.reading_count > 0 := by omega
    simp [Vis.load_sensor_data, Vis.load_sensor_data_full, hp, hprep, hpos, h1, hu]
  · intro hcap1
    have hne : f.rows ≠ [] := by
      intro h0
      rw [h0] at hover
      simp at hover
      omega
    refine ⟨hne, ?_⟩
    show s1.items = _
    rw [hitems, List.length_append, hil]
    have hkeq : s.reading_count = 1 := by omega
    have e : s.reading_count + f.rows.length - cap = s.items.length + (f.rows.length - 1) := by
      omega
    rw [e, List.drop_append]
    exact drop_length_pred f.rows hne

/-- Witness for C2: array size 2, buffer `[1, 2]`, batch `[3, 4]`. -/
theorem Vis.append_keeps_last_capacity_witness :
    ∃ s1, Vis.load_sensor_data 2 ⟨[rd 1, rd 2], 2, 2⟩ ⟨some 4, 0, [rd 3, rd 4], 101⟩ = some s1 ∧
      s1.readings.length = 2 ∧
      s1.reading_count = 2 ∧
      s1.items = (State.items ⟨[rd 1, rd 2], 2, 2⟩ ++ [rd 3, rd 4]).drop
        ((State.items ⟨[rd 1, rd 2], 2, 2⟩ ++ [rd 3, rd 4]).length - 2) ∧
      (2 = 1 → ∃ h : [rd 3, rd 4] ≠ [], s1.items = [[rd 3, rd 4].getLast h]) :=
  Vis.append_keeps_last_capacity 2 ⟨[rd 1, rd 2], 2, 2⟩ ⟨some 4, 0, [rd 3, rd 4], 101⟩
    (by decide) (by decide) (by decide) (by decide) (by decide) (by decide) (by decide)
    (by decide) (by decide)

namespace Gsl

/-- What the append loop of `sensor_gsl_visualizer.c` does on a well-formed
state: it never fails, and the accepted rows `acc` are appended in order. -/
theorem gsl_append_loop_spec (cap : Nat) :
    ∀ (rows : List SensorReading) (s : State),
      s.readings.length = cap → s.reading_count ≤ cap →
      ∃ s1 acc, append_loop cap rows s = some (s1, acc) ∧
        s1.readings.length = cap ∧
        s1.reading_count = s.reading_count + acc.length ∧
        s1.reading_count ≤ cap ∧
        s1.items = s.items ++ acc ∧
        s.last_reading_timestamp ≤ s1.last_reading_timestamp ∧
        (acc = [] → s1 = s) ∧
        (∀ h : acc ≠ [], s1.last_reading_timestamp = (acc.getLast h).timestamp) ∧
        StrictAsc acc ∧
        (∀ r ∈ acc, s.last_reading_timestamp < r.timestamp ∧ r ∈ rows) := by
  intro rows
  induction rows with
  | nil =>
    intro s hlen hc
    refine ⟨s, [], rfl, hlen, rfl, hc, by simp, le_refl _, fun _ => rfl,
      fun h => absurd rfl h, List.Pairwise.nil, fun r hr => by simp at hr⟩
  | cons row rest ih =>
    intro s hlen hc
    by_cases hroom : s.reading_count < cap
    · by_cases hst : row.timestamp ≤ s.last_reading_timestamp
      · obtain ⟨s1, acc, h1, h2, h3, h4, h5, h6, h7, h8, h9, h10⟩ := ih s hlen hc
        refine ⟨s1, acc, ?_, h2, h3, h4, h5, h6, h7, h8, h9, ?_⟩
        · simp only [append_loop, if_pos hroom, if_pos hst]
          exact h1
        · intro r hr
          exact ⟨(h10 r hr).1, List.mem_cons_of_mem _ (h10 r hr).2⟩
      · have hnf : ¬ (s.reading_count ≥ cap) := by omega
        have hlt : s.reading_count < s.readings.length := by omega
        obtain ⟨s1, acc, h1, h2, h3, h4, h5, h6, h7, h8, h9, h10⟩ :=
          ih ⟨s.readings.set s.reading_count row, s.reading_count + 1, row.timestamp⟩
            (by simp; omega) (by simp; omega)
        simp only at h3 h6 h10
        refine ⟨s1, row :: acc, ?_, h2, ?_, h4, ?_, by omega, ?_, ?_, ?_, ?_⟩
        · simp only [append_loop, if_pos hroom, if_neg hst, if_neg hnf, wr_eq_some hlt, h1]
        · rw [h3, List.length_cons]; omega
        · rw [h5]
          simp only [State.items]
          rw [take_set_self _ _ _ hlt]
          simp
        · intro h; exact absurd h (List.cons_ne_nil _ _)
        · intro _
          by_cases hacc : acc = []
          · subst hacc
            rw [h7 rfl]
            rfl
          · rw [h8 hacc, List.getLast_cons hacc]
        · exact List.Pairwise.cons (fun r hr => (h10 r hr).1) h9
        · intro r hr
          rcases List.mem_cons.mp hr with h | h
          · subst h
            exact ⟨by omega, List.mem_cons_self _ _⟩
          · exact ⟨by have := (h10 r h).1; omega, List.mem_cons_of_mem _ (h10 r h).2⟩
    · refine ⟨s, [], ?_, hlen, rfl, hc, by simp, le_refl _, fun _ => rfl,
        fun h => absurd rfl h, List.Pairwise.nil, fun r hr => by simp at hr⟩
      simp only [append_loop, if_neg hroom]

/-- When the buffer is full the append loop of `sensor_gsl_visualizer.c` exits
before its body: no row is accepted, nothing changes. -/
theorem append_loop_full (cap : Nat) (rows : List SensorReading) (s : State)
    (h : cap ≤ s.reading_count) : append_loop cap rows s = some (s, []) := by
  cases rows with
  | nil => rfl
  | cons row rest =>
    have hroom : ¬ (s.reading_count < cap) := by omega
    simp only [append_loop, if_neg hroom]

/-- Stale rows only: the append loop changes nothing. -/
theorem gsl_append_loop_stale (cap : Nat) :
    ∀ (rows : List SensorReading) (s : State),
      (∀ r ∈ rows, r.timestamp ≤ s.last_reading_timestamp) →
      append_loop cap rows s = some (s, []) := by
  intro rows
  induction rows with
  | nil => intro s _; rfl
  | cons row rest ih =>
    intro s h
    have hst : row.timestamp ≤ s.last_reading_timestamp := h row (List.mem_cons_self _ _)
    have hrest := ih s (fun r hr => h r (List.mem_cons_of_mem _ hr))
    by_cases hroom : s.reading_count < cap
    · simp only [append_loop, if_pos hroom, if_pos hst, hrest]
    · simp only [append_loop, if_neg hroom]

end Gsl

theorem reverse_from_spec (count n : Nat) : ∀ (i : Nat) (a : List SensorReading),
    count ≤ a.length → 2 * (i + n) ≤ count →
    ∃ b, reverse_from count n i a = some b ∧ b.length = a.length ∧
      ∀ k, b[k]? =
        if (i ≤ k ∧ k < i + n) ∨ (count - (i + n) ≤ k ∧ k < count - i)
        then a[count - 1 - k]? else a[k]? := by
  induction n with
  | zero =>
    intro i a _ _
    refine ⟨a, rfl, rfl, fun k => ?_⟩
    have : ¬ ((i ≤ k ∧ k < i + 0) ∨ (count - (i + 0) ≤ k ∧ k < count - i)) := by omega
    rw [if_neg this]
  | succ n ih =>
    intro i a hlen hn
    have hi : i < a.length := by omega
    have hj : count - 1 - i < a.length := by omega
    obtain ⟨b, hb, hbl, hbk⟩ :=
      ih (i + 1) ((a.set i a[count - 1 - i]).set (count - 1 - i) a[i])
        (by simp; omega) (by omega)
    refine ⟨b, ?_, by simpa using hbl, ?_⟩
    · have hj2 : count - 1 - i < (a.set i a[count - 1 - i]).length := by
        rw [List.length_set]; exact hj
      simp only [reverse_from, List.getElem?_eq_getElem hi, List.getElem?_eq_getElem hj,
        wr_eq_some hi, wr_eq_some hj2]
      exact hb
    · intro k
      rw [hbk k]
      simp only [List.getElem?_set, List.length_set]
      by_cases hk1 : k = i
      · have c1 : ¬ ((i + 1 ≤ k ∧ k < i + 1 + n) ∨
            (count - (i + 1 + n) ≤ k ∧ k < count - (i + 1))) := by omega
        have c2 : (i ≤ k ∧ k < i + (n + 1)) ∨
            (count - (i + (n + 1)) ≤ k ∧ k < count - i) := by omega
        have n1 : ¬ (count - 1 - i = k) := by omega
        rw [if_neg c1, if_pos c2, if_neg n1, if_pos hk1.symm, if_pos hi, hk1,
          List.getElem?_eq_getElem hj]
      · by_cases hk2 : k = count - 1 - i
        · have c1 : ¬ ((i + 1 ≤ k ∧ k < i + 1 + n) ∨
              (count - (i + 1 + n) ≤ k ∧ k < count - (i + 1))) := by omega
          have c2 : (i ≤ k ∧ k < i + (n + 1)) ∨
              (count - (i + (n + 1)) ≤ k ∧ k < count - i) := by omega
          have e : count - 1 - k = i := by omega
          rw [if_neg c1, if_pos c2, if_pos hk2.symm, if_pos hj, e,
            List.getElem?_eq_getElem hi]
        · by_cases c1 : (i + 1 ≤ k ∧ k < i + 1 + n) ∨
              (count - (i + 1 + n) ≤ k ∧ k < count - (i + 1))
          · have c2 : (i ≤ k ∧ k < i + (n + 1)) ∨
                (count - (i + (n + 1)) ≤ k ∧ k < count - i) := by omega
            have n1 : ¬ (count - 1 - i = count - 1 - k) := by omega
            have n2 : ¬ (i = count - 1 - k) := by omega
            rw [if_pos c1, if_pos c2, if_neg n1, if_neg n2]
          · have c2 : ¬ ((i ≤ k ∧ k < i + (n + 1)) ∨
                (count - (i + (n + 1)) ≤ k ∧ k < count - i)) := by omega
            have n1 : ¬ (count - 1 - i = k) := fun h => hk2 h.symm
            have n2 : ¬ (i = k) := fun h => hk1 h.symm
            rw [if_neg c1, if_neg c2, if_neg n1, if_neg n2]

/-- The swap loop run over `count / 2` positions reverses `readings[0 .. count-1]`
in place and leaves the rest of the array alone. -/
theorem reverse_from_take (count : Nat) (a : List SensorReading) (h : count ≤ a.length) :
    ∃ b, reverse_from count (count / 2) 0 a = some b ∧ b.length = a.length ∧
      b.take count = (a.take count).reverse := by
  obtain ⟨b, hb, hbl, hbk⟩ := reverse_from_spec count (count / 2) 0 a h (by omega)
  refine ⟨b, hb, hbl, ?_⟩
  apply List.ext_getElem?
  intro k
  by_cases hk : k < count
  · have hkl : k < (a.take count).length := by simp; omega
    rw [List.getElem?_reverse hkl, List.getElem?_take, List.getElem?_take, if_pos hk,
      List.length_take, hbk k]
    have e : min count a.length - 1 - k = count - 1 - k := by omega
    have hlt : count - 1 - k < count := by omega
    rw [e, if_pos hlt]
    by_cases c : (0 ≤ k ∧ k < 0 + count / 2) ∨ (count - (0 + count / 2) ≤ k ∧ k < count - 0)
    · rw [if_pos c]
    · have e2 : count - 1 - k = k := by omega
      rw [if_neg c, e2]
  · have h1 : (b.take count).length ≤ k := by simp; omega
    have h2 : (a.take count).reverse.length ≤ k := by simp; omega
    rw [List.getElem?_eq_none h1, List.getElem?_eq_none h2]

namespace Gsl

theorem gsl_initial_loop_spec (cap : Nat) :
    ∀ (rows : List SensorReading) (s : State),
      s.readings.length = cap → s.reading_count ≤ cap →
      ∃ s1, initial_loop cap rows s = some s1 ∧
        s1.readings.length = cap ∧
        s1.reading_count = min cap (s.reading_count + rows.length) ∧
        s1.items = s.items ++ rows.take (cap - s.reading_count) ∧
        s.last_reading_timestamp ≤ s1.last_reading_timestamp ∧
        (∀ r ∈ rows.take (cap - s.reading_count),
          r.timestamp ≤ s1.last_reading_timestamp) ∧
        (s1.last_reading_timestamp = s.last_reading_timestamp ∨
          ∃ r ∈ rows.take (cap - s.reading_count),
            s1.last_reading_timestamp = r.timestamp) := by
  intro rows
  induction rows with
  | nil =>
    intro s hlen hc
    refine ⟨s, rfl, hlen, by simp; omega, by simp, le_refl _, by simp, Or.inl rfl⟩
  | cons row rest ih =>
    intro s hlen hc
    by_cases hroom : s.reading_count < cap
    · have hlt : s.reading_count < s.readings.length := by omega
      obtain ⟨s1, h1, h2, h3, h4, h5, h6, h7⟩ :=
        ih ⟨s.readings.set s.reading_count row, s.reading_count + 1,
            if row.timestamp > s.last_reading_timestamp then row.timestamp
            else s.last_reading_timestamp⟩ (by simp; omega) (by simp; omega)
      simp only at h3 h4 h5 h6 h7
      have e : cap - s.reading_count = (cap - (s.reading_count + 1)) + 1 := by omega
      have hw : s.last_reading_timestamp ≤
          (if row.timestamp > s.last_reading_timestamp then row.timestamp
            else s.last_reading_timestamp) ∧
          row.timestamp ≤
          (if row.timestamp > s.last_reading_timestamp then row.timestamp
            else s.last_reading_timestamp) := by
        split_ifs <;> omega
      refine ⟨s1, ?_, h2, ?_, ?_, by omega, ?_, ?_⟩
      · simp only [initial_loop, if_pos hroom, wr_eq_some hlt]
        exact h1
      · rw [h3, List.length_cons]; congr 1; omega
      · rw [h4, e, List.take_succ_cons]
        simp only [State.items]
        rw [take_set_self _ _ _ hlt]
        simp
      · rw [e, List.take_succ_cons]
        intro r hr
        rcases List.mem_cons.mp hr with h | h
        · subst h; omega
        · exact h6 r h
      · rw [e, List.take_succ_cons]
        rcases h7 with h | ⟨r, hr, h⟩
        · by_cases hgt : row.timestamp > s.last_reading_timestamp
          · rw [if_pos hgt] at h
            exact Or.inr ⟨row, List.mem_cons_self _ _, h⟩
          · rw [if_neg hgt] at h
            exact Or.inl h
        · exact Or.inr ⟨r, List.mem_cons_of_mem _ hr, h⟩
    · have e : cap - s.reading_count = 0 := by omega
      refine ⟨s, ?_, hlen, by omega, by simp [e], le_refl _, by simp [e], Or.inl rfl⟩
      simp only [initial_loop, if_neg hroom]

/-- The initial-load branch of `sensor_gsl_visualizer.c` on an empty buffer. -/
theorem initial_load_spec (cap : Nat) (rows : List SensorReading) (s : State)
    (hlen : s.readings.length = cap) (h0 : s.reading_count = 0) :
    ∃ s1, initial_load cap rows s = some s1 ∧
      s1.readings.length = cap ∧
      s1.reading_count = min cap rows.length ∧
      s1.items = (rows.take cap).reverse ∧
      s.last_reading_timestamp ≤ s1.last_reading_timestamp ∧
      (∀ r ∈ rows.take cap, r.timestamp ≤ s1.last_reading_timestamp) ∧
      (s1.last_reading_timestamp = s.last_reading_timestamp ∨
        ∃ r ∈ rows.take cap, s1.last_reading_timestamp = r.timestamp) := by
  have hs : ({ s with reading_count := 0 } : State) = s := by
    cases s; simp only at h0; subst h0; rfl
  obtain ⟨s1, h1, h2, h3, h4, h5, h6, h7⟩ :=
    gsl_initial_loop_spec cap rows s hlen (by omega)
  rw [h0] at h3 h4 h6 h7
  simp only [Nat.zero_add, Nat.sub_zero] at h3 h4 h6 h7
  have hi0 : s.items = [] := by simp [State.items, h0]
  rw [hi0, List.nil_append] at h4
  by_cases hpos : s1.reading_count > 0
  · obtain ⟨b, hb, hbl, hbt⟩ := reverse_from_take s1.reading_count s1.readings (by omega)
    refine ⟨{ s1 with readings := b }, ?_, by simpa [hbl] using h2, h3, ?_, h5, h6, h7⟩
    · simp only [initial_load, hs, h1, if_pos hpos, hb]
    · show b.take s1.reading_count = _
      rw [hbt]
      have : s1.readings.take s1.reading_count = s1.items := rfl
      rw [this, h4]
  · refine ⟨s1, ?_, h2, h3, ?_, h5, h6, h7⟩
    · simp only [initial_load, hs, h1, if_neg hpos]
    · have hz : s1.reading_count = 0 := by omega
      have ht : rows.take cap = [] := by
        rw [← h4]; simp [State.items, hz]
      rw [ht]; simp [State.items, hz]

end Gsl

namespace Vis

theorem vis_initial_loop_spec (cap : Nat) :
    ∀ (rows : List SensorReading) (s : State),
      s.readings.length = cap → s.reading_count ≤ cap →
      ∃ s1, initial_loop cap rows s = some s1 ∧
        s1.readings.length = cap ∧
        s1.reading_count = min cap (s.reading_count + rows.length) ∧
        s1.items = s.items ++ rows.take (cap - s.reading_count) ∧
        s1.last_reading_timestamp = s.last_reading_timestamp := by
  intro rows
  induction rows with
  | nil =>
    intro s hlen hc
    refine ⟨s, rfl, hlen, by simp; omega, by simp, rfl⟩
  | cons row rest ih =>
    intro s hlen hc
    by_cases hroom : s.reading_count < cap
    · have hlt : s.reading_count < s.readings.length := by omega
      obtain ⟨s1, h1, h2, h3, h4, h5⟩ :=
        ih ⟨s.readings.set s.reading_count row, s.reading_count + 1,
            s.last_reading_timestamp⟩ (by simp; omega) (by simp; omega)
      simp only at h3 h4 h5
      have e : cap - s.reading_count = (cap - (s.reading_count + 1)) + 1 := by omega
      refine ⟨s1, ?_, h2, ?_, ?_, h5⟩
      · simp only [initial_loop, if_pos hroom, wr_eq_some hlt]
        exact h1
      · rw [h3, List.length_cons]; congr 1; omega
      · rw [h4, e, List.take_succ_cons]
        simp only [State.items]
        rw [take_set_self _ _ _ hlt]
        simp
    · have e : cap - s.reading_count = 0 := by omega
      refine ⟨s, ?_, hlen, by omega, by simp [e], rfl⟩
      simp only [initial_loop, if_neg hroom]

end Vis

theorem strictAsc_le_getLast : ∀ (l : List SensorReading) (h : l ≠ []),
    StrictAsc l → ∀ r ∈ l, r.timestamp ≤ (l.getLast h).timestamp := by
  intro l
  induction l with
  | nil => intro h; exact absurd rfl h
  | cons a t ih =>
    intro h hasc r hr
    have hp := List.pairwise_cons.mp hasc
    by_cases ht : t = []
    · subst ht
      have : r = a := by simpa using hr
      subst this
      simp
    · rw [List.getLast_cons ht]
      rcases List.mem_cons.mp hr with h1 | h1
      · subst h1
        exact le_of_lt (hp.1 _ (List.getLast_mem ht))
      · exact ih ht hp.2 r h1

theorem State.init_length (cap : Nat) : (State.init cap).readings.length = cap := by
  simp [State.init]

theorem State.init_items (cap : Nat) : (State.init cap).items = [] := by
  simp [State.init, State.items]

namespace Gsl

/-- One call of `load_sensor_data` of `sensor_gsl_visualizer.c` on a well-formed
state: it returns, keeps the state well formed, never lowers the watermark. -/
theorem gsl_load_full_spec (cap : Nat) (s : State) (f : Fetch)
    (hlen : s.readings.length = cap) (hc : s.reading_count ≤ cap) :
    ∃ s1 acc, load_sensor_data_full cap s f = some (s1, acc) ∧
      s1.readings.length = cap ∧ s1.reading_count ≤ cap ∧
      s.last_reading_timestamp ≤ s1.last_reading_timestamp ∧
      (∀ h : acc ≠ [], s1.last_reading_timestamp = (acc.getLast h).timestamp) ∧
      ((∀ r ∈ s.items, r.timestamp ≤ s.last_reading_timestamp) →
        (s.reading_count = 0 → StrictDesc f.rows) →
        StrictAsc s.items →
        StrictAsc s1.items ∧ ∀ r ∈ s1.items, r.timestamp ≤ s1.last_reading_timestamp) := by
  unfold load_sensor_data_full
  by_cases hp : f.probe.getD 0 ≤ s.last_reading_timestamp
  · refine ⟨s, [], by simp only [if_pos hp], hlen, hc, le_refl _, fun h => absurd rfl h,
      fun h1 _ h3 => ⟨h3, h1⟩⟩
  · by_cases hprep : f.prepare_rc ≠ SQLITE_OK
    · refine ⟨s, [], by simp only [if_neg hp, if_pos hprep], hlen, hc, le_refl _,
        fun h => absurd rfl h, fun h1 _ h3 => ⟨h3, h1⟩⟩
    · by_cases hpos : s.reading_count > 0
      · obtain ⟨s1, acc, h1, h2, h3, h4, h5, h6, h7, h8, h9, h10⟩ :=
          gsl_append_loop_spec cap f.rows s hlen hc
        refine ⟨s1, acc, by simp only [if_neg hp, if_neg hprep, if_pos hpos, h1], h2, h4, h6,
          h8, ?_⟩
        intro hle _ hasc
        by_cases hacc : acc = []
        · rw [h7 hacc]; exact ⟨hasc, hle⟩
        · rw [h5]
          refine ⟨?_, ?_⟩
          · refine List.pairwise_append.mpr ⟨hasc, h9, ?_⟩
            intro a ha b hb
            have := hle a ha
            have := (h10 b hb).1
            omega
          · intro r hr
            rcases List.mem_append.mp hr with h | h
            · have := hle r h; omega
            · rw [h8 hacc]; exact strictAsc_le_getLast acc hacc h9 r h
      · obtain ⟨s1, h1, h2, h3, h4, h5, h6, h7⟩ :=
          initial_load_spec cap f.rows s hlen (by omega)
        refine ⟨s1, [], by simp only [if_neg hp, if_neg hprep, if_neg hpos, h1], h2,
          by rw [h3]; omega, h5, fun h => absurd rfl h, ?_⟩
        intro _ hdesc _
        rw [h4]
        refine ⟨?_, ?_⟩
        · have hd : StrictDesc (f.rows.take cap) :=
            List.Pairwise.sublist (List.take_sublist _ _) (hdesc (by omega))
          exact List.pairwise_reverse.mpr hd
        · intro r hr
          exact h6 r (List.mem_reverse.mp hr)

theorem reachable_wf (cap : Nat) (s : State) (h : Reachable cap s) :
    s.readings.length = cap ∧ s.reading_count ≤ cap := by
  induction h with
  | init => exact ⟨State.init_length cap, Nat.zero_le _⟩
  | step f _ hload ih =>
    obtain ⟨s2, acc, h1, h2, h3, _⟩ := gsl_load_full_spec cap _ f ih.1 ih.2
    simp only [load_sensor_data, h1, Option.map_some', Option.some.injEq] at hload
    subst hload
    exact ⟨h2, h3⟩

theorem reachableDesc_inv (cap : Nat) (s : State) (h : ReachableDesc cap s) :
    (s.readings.length = cap ∧ s.reading_count ≤ cap) ∧
      StrictAsc s.items ∧ ∀ r ∈ s.items, r.timestamp ≤ s.last_reading_timestamp := by
  induction h with
  | init =>
    refine ⟨⟨State.init_length cap, Nat.zero_le _⟩, ?_, ?_⟩
    · rw [State.init_items]; exact List.Pairwise.nil
    · rw [State.init_items]; intro r hr; simp at hr
  | step f _ hdesc hload ih =>
    obtain ⟨s2, acc, h1, h2, h3, _, _, h6⟩ := gsl_load_full_spec cap _ f ih.1.1 ih.1.2
    simp only [load_sensor_data, h1, Option.map_some', Option.some.injEq] at hload
    subst hload
    exact ⟨⟨h2, h3⟩, h6 ih.2.2 hdesc ih.2.1⟩

end Gsl

theorem last_of_drop (A acc : List SensorReading) (d m : Nat) (hacc : acc ≠ [])
    (hm : d + m + 1 = A.length + acc.length) :
    ((A ++ acc).drop d)[m]? = some (acc.getLast hacc) := by
  have hpos : 0 < acc.length := List.length_pos.mpr hacc
  rw [List.getElem?_drop, List.getElem?_append_right (by omega), List.getLast_eq_getElem]
  have e : d + m - A.length = acc.length - 1 := by omega
  rw [e, List.getElem?_eq_getElem (by omega)]

namespace Vis

/-- Stale rows only: the append loop changes nothing. -/
theorem vis_append_loop_stale (cap : Nat) :
    ∀ (rows : List SensorReading) (s : State),
      (∀ r ∈ rows, r.timestamp ≤ s.last_reading_timestamp) →
      append_loop cap rows s = some (s, []) := by
  intro rows
  induction rows with
  | nil => intro s _; rfl
  | cons row rest ih =>
    intro s h
    have hst : row.timestamp ≤ s.last_reading_timestamp := h row (List.mem_cons_self _ _)
    have hrest := ih s (fun r hr => h r (List.mem_cons_of_mem _ hr))
    simp only [append_loop, if_pos hst, hrest]

/-- The closing update is the identity on a state whose watermark already is the
timestamp of its last reading. -/
theorem update_last_fix (s : State)
    (h : s.reading_count > 0 →
      ∃ r, s.readings[s.reading_count - 1]? = some r ∧
        r.timestamp = s.last_reading_timestamp) :
    update_last s = some s := by
  by_cases hp : s.reading_count > 0
  · obtain ⟨r, hr, hrt⟩ := h hp
    simp only [update_last, if_pos hp, hr, hrt]
  · simp only [update_last, if_neg hp]

/-- One call of `load_sensor_data` of `sensor_visualizer.c` on a state that is
well formed and whose watermark is the timestamp of its last reading (`0` when
the buffer is empty). -/
theorem vis_load_full_spec (cap : Nat) (s : State) (f : Fetch)
    (hlen : s.readings.length = cap) (hc : s.reading_count ≤ cap)
    (hw : s.reading_count > 0 →
      ∃ r, s.readings[s.reading_count - 1]? = some r ∧
        r.timestamp = s.last_reading_timestamp)
    (hz : s.reading_count = 0 → s.last_reading_timestamp = 0) :
    ∃ s1 acc, load_sensor_data_full cap s f = some (s1, acc) ∧
      (s1.readings.length = cap ∧ s1.reading_count ≤ cap ∧
        (s1.reading_count > 0 →
          ∃ r, s1.readings[s1.reading_count - 1]? = some r ∧
            r.timestamp = s1.last_reading_timestamp) ∧
        (s1.reading_count = 0 → s1.last_reading_timestamp = 0)) ∧
      ((∀ r ∈ f.rows, 0 < r.timestamp) →
        s.last_reading_timestamp ≤ s1.last_reading_timestamp) ∧
      (∀ h : acc ≠ [], 0 < s.reading_count ∧
        s1.last_reading_timestamp = (acc.getLast h).timestamp) ∧
      (acc = [] → 0 < s.reading_count → s1 = s) := by
  unfold load_sensor_data_full
  by_cases hp : f.probe.getD 0 ≤ s.last_reading_timestamp
  · exact ⟨s, [], by simp only [if_pos hp], ⟨hlen, hc, hw, hz⟩, fun _ => le_refl _,
      fun h => absurd rfl h, fun _ _ => rfl⟩
  · by_cases hprep : f.prepare_rc ≠ SQLITE_OK
    · exact ⟨s, [], by simp only [if_neg hp, if_pos hprep], ⟨hlen, hc, hw, hz⟩,
        fun _ => le_refl _, fun h => absurd rfl h, fun _ _ => rfl⟩
    · by_cases hpos : s.reading_count > 0
      · have hcap : 1 ≤ cap := by omega
        by_cases hacc : (f.rows.filter fun r =>
            decide (s.last_reading_timestamp < r.timestamp)) = []
        · have hstale : ∀ r ∈ f.rows, r.timestamp ≤ s.last_reading_timestamp := by
            intro r hr
            by_contra hcon
            have : r ∈ f.rows.filter fun r =>
                decide (s.last_reading_timestamp < r.timestamp) := by
              rw [List.mem_filter]; exact ⟨hr, by simp; omega⟩
            rw [hacc] at this
            simp at this
          refine ⟨s, [], ?_, ⟨hlen, hc, hw, hz⟩, fun _ => le_refl _,
            fun h => absurd rfl h, fun _ _ => rfl⟩
          simp only [if_neg hp, if_neg hprep, if_pos hpos, vis_append_loop_stale cap f.rows s hstale,
            update_last_fix s hw]
        · obtain ⟨s1, h1, h2, h3, h4, h5⟩ := vis_append_loop_spec cap hcap f.rows s hlen hc
          have hal : 0 < (f.rows.filter fun r =>
              decide (s.last_reading_timestamp < r.timestamp)).length :=
            List.length_pos.mpr hacc
          have hil : s.items.length = s.reading_count := s.length_items (by omega)
          have hc1 : 1 ≤ s1.reading_count ∧ s1.reading_count ≤ cap := by
            rw [h4]; omega
          have hlast : s1.readings[s1.reading_count - 1]? =
              some ((f.rows.filter fun r =>
                decide (s.last_reading_timestamp < r.timestamp)).getLast hacc) := by
            have e : s1.readings[s1.reading_count - 1]? =
                s1.items[s1.reading_count - 1]? := by
              simp only [State.items]
              rw [List.getElem?_take, if_pos (by omega)]
            rw [e, h5]
            apply last_of_drop
            rw [hil, h4]; omega
          obtain ⟨r, hr, hu⟩ := update_last_spec s1 hc1.1 (by omega)
          rw [hlast] at hr
          have hre := Option.some.inj hr
          have hmem := List.getLast_mem hacc
          rw [List.mem_filter] at hmem
          have hgt : s.last_reading_timestamp < r.timestamp := by
            rw [← hre]; simpa using hmem.2
          refine ⟨{ s1 with last_reading_timestamp := r.timestamp }, _, ?_,
            ⟨h2, hc1.2, fun _ => ⟨_, hlast, by rw [hre]⟩, fun h0 => ?_⟩,
            fun _ => le_of_lt hgt, fun _ => ⟨hpos, by rw [hre]⟩, fun h => absurd h hacc⟩
          · simp only [if_neg hp, if_neg hprep, if_pos hpos, h1, hu]
          · have : s1.reading_count = 0 := h0
            omega
      · have h0 : s.reading_count = 0 := by omega
        have hs : ({ s with reading_count := 0 } : State) = s := by
          cases s; simp only at h0; subst h0; rfl
        obtain ⟨s1, h1, h2, h3, h4, h5⟩ := vis_initial_loop_spec cap f.rows s hlen hc
        rw [h0] at h3 h4
        simp only [Nat.zero_add, Nat.sub_zero] at h3 h4
        have hi0 : s.items = [] := by simp [State.items, h0]
        rw [hi0, List.nil_append] at h4
        by_cases hpos1 : s1.reading_count > 0
        · obtain ⟨r, hr, hu⟩ := update_last_spec s1 (by omega) (by omega)
          refine ⟨{ s1 with last_reading_timestamp := r.timestamp }, [], ?_,
            ⟨h2, by rw [h3]; omega, fun _ => ⟨r, hr, rfl⟩, fun h => ?_⟩, fun hposr => ?_,
            fun h => absurd rfl h, fun _ h => absurd h0 (by omega)⟩
          · simp only [if_neg hp, if_neg hprep, if_neg hpos, hs, h1, hu]
          · have : s1.reading_count = 0 := h
            omega
          · show s.last_reading_timestamp ≤ r.timestamp
            have hmem : r ∈ s1.items := by
              have e : s1.items[s1.reading_count - 1]? = some r := by
                simp only [State.items]
                rw [List.getElem?_take, if_pos (by omega)]
                exact hr
              exact List.getElem?_mem e
            rw [h4] at hmem
            have := hposr r (List.mem_of_mem_take hmem)
            rw [hz h0]; omega
        · refine ⟨s1, [], ?_, ⟨h2, by rw [h3]; omega, fun h => absurd h hpos1,
            fun _ => by rw [h5]; exact hz h0⟩, fun _ => by rw [h5],
            fun h => absurd rfl h, fun _ h => absurd h0 (by omega)⟩
          have hu : update_last s1 = some s1 := by simp only [update_last, if_neg hpos1]
          simp only [if_neg hp, if_neg hprep, if_neg hpos, hs, h1, hu]

theorem reachable_inv (cap : Nat) (s : State) (h : Reachable cap s) :
    s.readings.length = cap ∧ s.reading_count ≤ cap ∧
      (s.reading_count > 0 →
        ∃ r, s.readings[s.reading_count - 1]? = some r ∧
          r.timestamp = s.last_reading_timestamp) ∧
      (s.reading_count = 0 → s.last_reading_timestamp = 0) := by
  induction h with
  | init =>
    exact ⟨State.init_length cap, Nat.zero_le _, fun h => absurd h (by simp [State.init]),
      fun _ => rfl⟩
  | step f _ hload ih =>
    obtain ⟨s2, acc, h1, h2, _⟩ := vis_load_full_spec cap _ f ih.1 ih.2.1 ih.2.2.1 ih.2.2.2
    simp only [load_sensor_data, h1, Option.map_some', Option.some.injEq] at hload
    subst hload
    exact h2

end Vis

theorem ramp_length (n : Nat) : (ramp n).length = n := by simp [ramp]

theorem ramp_le (n : Nat) : ∀ r ∈ ramp n, r.timestamp ≤ n := by
  intro r hr
  simp only [ramp, List.mem_map, List.mem_range] at hr
  obtain ⟨i, hi, rfl⟩ := hr
  show Int.ofNat i + 1 ≤ (n : Int)
  have : (Int.ofNat i : Int) = (i : Int) := rfl
  omega

/-- A call of `load_sensor_data` of `sensor_gsl_visualizer.c` on a full buffer
changes nothing, whatever the store answers. -/
theorem Gsl.load_full_buffer (cap : Nat) (s : State) (f : Fetch)
    (hpos : 0 < s.reading_count) (hfull : cap ≤ s.reading_count) :
    Gsl.load_sensor_data_full cap s f = some (s, []) := by
  unfold Gsl.load_sensor_data_full
  by_cases hp : f.probe.getD 0 ≤ s.last_reading_timestamp
  · simp only [if_pos hp]
  · by_cases hprep : f.prepare_rc ≠ SQLITE_OK
    · simp only [if_neg hp, if_pos hprep]
    · have hpos1 : s.reading_count > 0 := hpos
      simp only [if_neg hp, if_neg hprep, if_pos hpos1, Gsl.append_loop_full cap f.rows s hfull]

/-- C1 (failing input): with the buffer of `sensor_gsl_visualizer.c` full
(`MAX_READINGS = 500` readings with timestamps `1..500`, watermark `500`) and one
new row with timestamp `501` in the store, `load_sensor_data` leaves the globals
as they were; the buffer is not the last 500 readings of the old items followed
by the batch, which end with the new row. -/
theorem Gsl.full_buffer_rejects_new_row :
    Gsl.load_sensor_data Gsl.MAX_READINGS ⟨ramp 500, 500, 500⟩
        ⟨some 501, SQLITE_OK, [rd 501], SQLITE_DONE⟩ = some ⟨ramp 500, 500, 500⟩ ∧
      State.items ⟨ramp 500, 500, 500⟩ ≠
        (State.items ⟨ramp 500, 500, 500⟩ ++ [rd 501]).drop
          ((State.items ⟨ramp 500, 500, 500⟩ ++ [rd 501]).length - Gsl.MAX_READINGS) := by
  constructor
  · unfold Gsl.load_sensor_data
    have h := Gsl.load_full_buffer Gsl.MAX_READINGS ⟨ramp 500, 500, 500⟩
      ⟨some 501, SQLITE_OK, [rd 501], SQLITE_DONE⟩ (by decide) (Nat.le_refl 500)
    rw [h]
    rfl
  · intro h
    have hit : State.items ⟨ramp 500, 500, 500⟩ = ramp 500 := by
      simp [State.items, List.take_of_length_le, ramp_length]
    rw [hit] at h
    have hmem : rd 501 ∈ ramp 500 := by
      rw [h, List.length_append, ramp_length]
      have e : 500 + [rd 501].length - Gsl.MAX_READINGS = 1 := by
        simp [Gsl.MAX_READINGS]
      rw [e, List.drop_append_of_le_length (by rw [ramp_length]; omega)]
      simp
    have := ramp_le 500 _ hmem
    simp [rd] at this

/-- C3 (failing input): in `sensor_visualizer.c` the initial load of the rows
`[3, 2, 1]` (descending, as `ORDER BY timestamp DESC` delivers them) leaves the
buffer in descending order `[3, 2, 1]` and sets `last_reading_timestamp` to the
smallest timestamp `1`, not to `3`. -/
theorem Vis.initial_load_keeps_descending :
    (Vis.load_sensor_data Vis.MAX_READINGS (State.init Vis.MAX_READINGS)
        ⟨some 3, SQLITE_OK, [rd 3, rd 2, rd 1], SQLITE_DONE⟩).map
      (fun s => (s.items, s.reading_count, s.last_reading_timestamp)) =
      some ([rd 3, rd 2, rd 1], 3, 1) := by
  decide

/-- C4: in `sensor_gsl_visualizer.c`, the initial-load branch (buffer empty,
watermark `0`) given `n` rows with positive timestamps in strictly descending
time order ends with `reading_count = min n cap`, the buffer equal to the reverse
of the first `min n cap` rows (the most recent rows in ascending order, nothing
added when `n < cap`), and `last_reading_timestamp` the largest timestamp among
the rows stored; for `[t3, t2, t1]` the buffer is `[t1, t2, t3]` and the
watermark is `t3`.  Here `cap` is the array size `MAX_READINGS`. -/
theorem Gsl.initial_load_ascending (cap : Nat) (s : State) (f : Fetch)
    (hlen : s.readings.length = cap) (h0 : s.reading_count = 0)
    (hw : s.last_reading_timestamp = 0)
    (hprobe : 0 < f.probe.getD 0) (hprep : f.prepare_rc = SQLITE_OK)
    (hdesc : StrictDesc f.rows) (hpos : ∀ r ∈ f.rows, 0 < r.timestamp) :
    ∃ s1, Gsl.load_sensor_data cap s f = some s1 ∧
      s1.reading_count = min f.rows.length cap ∧
      s1.items = (f.rows.take (min f.rows.length cap)).reverse ∧
      (∀ r ∈ s1.items, r.timestamp ≤ s1.last_reading_timestamp) ∧
      (s1.items ≠ [] → ∃ r ∈ s1.items, r.timestamp = s1.last_reading_timestamp) ∧
      (∀ r3 r2 r1, f.rows = [r3, r2, r1] → 3 ≤ cap →
        s1.items = [r1, r2, r3] ∧ s1.last_reading_timestamp = r3.timestamp) := by
  obtain ⟨s1, h1, h2, h3, h4, h5, h6, h7⟩ := Gsl.initial_load_spec cap f.rows s hlen h0
  have htake : f.rows.take (min f.rows.length cap) = f.rows.take cap := by
    rcases Nat.le_total f.rows.length cap with h | h
    · rw [Nat.min_eq_left h, List.take_of_length_le (le_refl _), List.take_of_length_le h]
    · rw [Nat.min_eq_right h]
  have hmax : s1.items ≠ [] → ∃ r ∈ s1.items, r.timestamp = s1.last_reading_timestamp := by
    intro hne
    rcases h7 with h | ⟨r, hr, h⟩
    · exfalso
      obtain ⟨r, hr⟩ := List.exists_mem_of_ne_nil _ hne
      rw [h4] at hr
      have hr' := List.mem_reverse.mp hr
      have := h6 r hr'
      have := hpos r (List.mem_of_mem_take hr')
      omega
    · exact ⟨r, by rw [h4]; exact List.mem_reverse.mpr hr, h.symm⟩
  refine ⟨s1, ?_, by rw [h3, Nat.min_comm], by rw [h4, htake], ?_, hmax, ?_⟩
  · have hp : ¬ (f.probe.getD 0 ≤ s.last_reading_timestamp) := by omega
    have hok : ¬ (f.prepare_rc ≠ SQLITE_OK) := fun h => h hprep
    have hz : ¬ (s.reading_count > 0) := by omega
    simp only [Gsl.load_sensor_data, Gsl.load_sensor_data_full, if_neg hp, if_neg hok,
      if_neg hz, h1, Option.map_some']
  · intro r hr
    rw [h4] at hr
    exact h6 r (List.mem_reverse.mp hr)
  · intro r3 r2 r1 hrows hcap
    have hit : s1.items = [r1, r2, r3] := by
      rw [h4, hrows]
      have : List.take cap [r3, r2, r1] = [r3, r2, r1] :=
        List.take_of_length_le (by simpa using hcap)
      rw [this]; rfl
    refine ⟨hit, ?_⟩
    obtain ⟨r, hr, hrt⟩ := hmax (by rw [hit]; exact List.cons_ne_nil _ _)
    have hle : r3.timestamp ≤ s1.last_reading_timestamp := by
      refine h6 r3 ?_
      rw [hrows]
      have : List.take cap [r3, r2, r1] = [r3, r2, r1] :=
        List.take_of_length_le (by simpa using hcap)
      rw [this]; exact List.mem_cons_self _ _
    rw [hrows] at hdesc
    have hd := List.pairwise_cons.mp hdesc
    have hd2 := List.pairwise_cons.mp hd.2
    have h32 := hd.1 r2 (by simp)
    have h31 := hd.1 r1 (by simp)
    rw [hit] at hr
    simp only [List.mem_cons, List.mem_singleton, List.not_mem_nil, or_false] at hr
    rcases hr with h | h | h <;> subst h <;> omega

/-- Witness for C4: array size 3, rows `[30, 20, 10]`. -/
theorem Gsl.initial_load_ascending_witness :
    ∃ s1, Gsl.load_sensor_data 3 (State.init 3)
        ⟨some 30, SQLITE_OK, [rd 30, rd 20, rd 10], SQLITE_DONE⟩ = some s1 ∧
      s1.reading_count = 3 ∧ s1.items = [rd 10, rd 20, rd 30] ∧
      s1.last_reading_timestamp = 30 := by
  obtain ⟨s1, h1, h2, _, _, _, h6⟩ :=
    Gsl.initial_load_ascending 3 (State.init 3)
      ⟨some 30, SQLITE_OK, [rd 30, rd 20, rd 10], SQLITE_DONE⟩
      (by decide) (by decide) (by decide) (by decide) (by decide) (by decide) (by decide)
  exact ⟨s1, h1, h2, (h6 _ _ _ rfl (by decide)).1, (h6 _ _ _ rfl (by decide)).2⟩

theorem replay_fix (step : State → Option State) (s : State) (h : step s = some s) :
    ∀ n, replay step n s = some s := by
  intro n
  induction n with
  | zero => rfl
  | succ n ih => simp only [replay, h, ih]

/-- C5: in the append branch of `load_sensor_data` of both visualizers, on a
reachable non-empty buffer, a fetched batch whose rows all have a timestamp `<=`
the watermark (equality included) leaves `readings`, `reading_count` and
`last_reading_timestamp` as they were, however many times it is replayed. -/
theorem stale_rows_idempotent (cap : Nat) (s : State) (f : Fetch)
    (hne : 0 < s.reading_count)
    (hstale : ∀ r ∈ f.rows, r.timestamp ≤ s.last_reading_timestamp) :
    (Gsl.Reachable cap s →
      ∀ n, replay (fun t => Gsl.load_sensor_data cap t f) n s = some s) ∧
    (Vis.Reachable cap s →
      ∀ n, replay (fun t => Vis.load_sensor_data cap t f) n s = some s) := by
  constructor
  · intro _
    apply replay_fix
    show Gsl.load_sensor_data cap s f = some s
    unfold Gsl.load_sensor_data Gsl.load_sensor_data_full
    by_cases hp : f.probe.getD 0 ≤ s.last_reading_timestamp
    · simp only [if_pos hp, Option.map_some']
    · by_cases hprep : f.prepare_rc ≠ SQLITE_OK
      · simp only [if_neg hp, if_pos hprep, Option.map_some']
      · have hpos : s.reading_count > 0 := hne
        simp only [if_neg hp, if_neg hprep, if_pos hpos,
          Gsl.gsl_append_loop_stale cap f.rows s hstale, Option.map_some']
  · intro hr
    apply replay_fix
    show Vis.load_sensor_data cap s f = some s
    have hinv := Vis.reachable_inv cap s hr
    unfold Vis.load_sensor_data Vis.load_sensor_data_full
    by_cases hp : f.probe.getD 0 ≤ s.last_reading_timestamp
    · simp only [if_pos hp, Option.map_some']
    · by_cases hprep : f.prepare_rc ≠ SQLITE_OK
      · simp only [if_neg hp, if_pos hprep, Option.map_some']
      · have hpos : s.reading_count > 0 := hne
        simp only [if_neg hp, if_neg hprep, if_pos hpos,
          Vis.vis_append_loop_stale cap f.rows s hstale, Vis.update_last_fix s hinv.2.2.1,
          Option.map_some']

/-- Witness for C5: array size 3, the buffer `[5]` reached by one initial load,
and the stale batch `[4, 5]` replayed three times under a probe value `9`. -/
theorem stale_rows_idempotent_witness :
    replay (fun t => Gsl.load_sensor_data 3 t ⟨some 9, SQLITE_OK, [rd 4, rd 5], SQLITE_DONE⟩) 3
        ⟨[rd 5, rd 0, rd 0], 1, 5⟩ = some ⟨[rd 5, rd 0, rd 0], 1, 5⟩ ∧
      replay (fun t => Vis.load_sensor_data 3 t ⟨some 9, SQLITE_OK, [rd 4, rd 5], SQLITE_DONE⟩) 3
        ⟨[rd 5, rd 0, rd 0], 1, 5⟩ = some ⟨[rd 5, rd 0, rd 0], 1, 5⟩ :=
  ⟨(stale_rows_idempotent 3 ⟨[rd 5, rd 0, rd 0], 1, 5⟩
      ⟨some 9, SQLITE_OK, [rd 4, rd 5], SQLITE_DONE⟩ (by decide) (by decide)).1
      (Gsl.Reachable.step ⟨some 5, SQLITE_OK, [rd 5], SQLITE_DONE⟩ Gsl.Reachable.init
        (by decide)) 3,
    (stale_rows_idempotent 3 ⟨[rd 5, rd 0, rd 0], 1, 5⟩
      ⟨some 9, SQLITE_OK, [rd 4, rd 5], SQLITE_DONE⟩ (by decide) (by decide)).2
      (Vis.Reachable.step ⟨some 5, SQLITE_OK, [rd 5], SQLITE_DONE⟩ Vis.Reachable.init
        (by decide)) 3⟩

/-- C6: in `sensor_gsl_visualizer.c`, in every state reached from the empty
buffer by calls of `load_sensor_data` whose initial loads receive rows in
strictly descending time order and whose append-branch calls receive any rows,
`readings[i].timestamp < readings[i+1].timestamp` for every adjacent pair below
`reading_count`, and no timestamp occurs twice in the buffer. -/
theorem Gsl.ordering_invariant (cap : Nat) (s : State) (h : Gsl.ReachableDesc cap s) :
    (∀ i, i + 1 < s.reading_count →
      ∃ a b, s.readings[i]? = some a ∧ s.readings[i + 1]? = some b ∧
        a.timestamp < b.timestamp) ∧
    (s.items.map fun r => r.timestamp).Nodup := by
  obtain ⟨⟨hlen, hc⟩, hasc, _⟩ := Gsl.reachableDesc_inv cap s h
  have hil : s.items.length = s.reading_count := s.length_items (by omega)
  constructor
  · intro i hi
    have h1 : i < s.readings.length := by omega
    have h2 : i + 1 < s.readings.length := by omega
    refine ⟨s.readings[i], s.readings[i + 1], List.getElem?_eq_getElem h1,
      List.getElem?_eq_getElem h2, ?_⟩
    have hp := List.pairwise_iff_getElem.mp hasc i (i + 1) (by omega) (by omega)
      (Nat.lt_succ_self i)
    simpa [State.items] using hp
  · unfold List.Nodup
    rw [List.pairwise_map]
    exact List.Pairwise.imp (fun hab => ne_of_lt hab) hasc

/-- Witness for C6: array size 4, initial load of `[3, 2, 1]`, then an append of
the batch `[2, 5, 4]`, of which only `5` is accepted. -/
theorem Gsl.ordering_invariant_witness :
    (∀ i, i + 1 < 4 →
      ∃ a b, [rd 1, rd 2, rd 3, rd 5][i]? = some a ∧ [rd 1, rd 2, rd 3, rd 5][i + 1]? = some b ∧
        a.timestamp < b.timestamp) ∧
    ((State.items ⟨[rd 1, rd 2, rd 3, rd 5], 4, 5⟩).map fun r => r.timestamp).Nodup :=
  Gsl.ordering_invariant 4 ⟨[rd 1, rd 2, rd 3, rd 5], 4, 5⟩
    (Gsl.ReachableDesc.step ⟨some 5, SQLITE_OK, [rd 2, rd 5, rd 4], SQLITE_DONE⟩
      (Gsl.ReachableDesc.step ⟨some 3, SQLITE_OK, [rd 3, rd 2, rd 1], SQLITE_DONE⟩
        Gsl.ReachableDesc.init (by decide)
        (show Gsl.load_sensor_data 4 (State.init 4)
            ⟨some 3, SQLITE_OK, [rd 3, rd 2, rd 1], SQLITE_DONE⟩ =
          some ⟨[rd 1, rd 2, rd 3, rd 0], 3, 3⟩ by decide))
      (by decide) (by decide))

/-- C7: in both visualizers, in every state reached from the empty buffer
`reading_count <= MAX_READINGS` (here `cap`), and every further call of
`load_sensor_data`, whatever rows the store delivers, returns with
`reading_count <= cap`.  That the call returns a state means that none of its
array accesses, in particular no write `readings[reading_count]`, was at an index
`>= cap`: the embedding returns `none` on such an access. -/
theorem capacity_invariant (cap : Nat) (s : State) (f : Fetch) :
    (Gsl.Reachable cap s →
      s.readings.length = cap ∧ s.reading_count ≤ cap ∧
      ∃ s1, Gsl.load_sensor_data cap s f = some s1 ∧
        s1.readings.length = cap ∧ s1.reading_count ≤ cap) ∧
    (Vis.Reachable cap s →
      s.readings.length = cap ∧ s.reading_count ≤ cap ∧
      ∃ s1, Vis.load_sensor_data cap s f = some s1 ∧
        s1.readings.length = cap ∧ s1.reading_count ≤ cap) := by
  constructor
  · intro hr
    obtain ⟨hlen, hc⟩ := Gsl.reachable_wf cap s hr
    obtain ⟨s1, acc, h1, h2, h3, _⟩ := Gsl.gsl_load_full_spec cap s f hlen hc
    exact ⟨hlen, hc, s1, by simp only [Gsl.load_sensor_data, h1, Option.map_some'], h2, h3⟩
  · intro hr
    obtain ⟨hlen, hc, hw, hz⟩ := Vis.reachable_inv cap s hr
    obtain ⟨s1, acc, h1, h2, _⟩ := Vis.vis_load_full_spec cap s f hlen hc hw hz
    exact ⟨hlen, hc, s1, by simp only [Vis.load_sensor_data, h1, Option.map_some'],
      h2.1, h2.2.1⟩

/-- Witness for C7: array size 2, the full buffer `[5, 6]` of
`sensor_visualizer.c` and the buffer `[5]` of `sensor_gsl_visualizer.c`, each
followed by a call that delivers three new rows. -/
theorem capacity_invariant_witness :
    (∃ s1, Gsl.load_sensor_data 2 ⟨[rd 5, rd 0], 1, 5⟩
        ⟨some 9, SQLITE_OK, [rd 7, rd 8, rd 9], SQLITE_DONE⟩ = some s1 ∧
      s1.readings.length = 2 ∧ s1.reading_count ≤ 2) ∧
    (∃ s1, Vis.load_sensor_data 2 ⟨[rd 5, rd 6], 2, 6⟩
        ⟨some 9, SQLITE_OK, [rd 7, rd 8, rd 9], SQLITE_DONE⟩ = some s1 ∧
      s1.readings.length = 2 ∧ s1.reading_count ≤ 2) :=
  ⟨((capacity_invariant 2 ⟨[rd 5, rd 0], 1, 5⟩
      ⟨some 9, SQLITE_OK, [rd 7, rd 8, rd 9], SQLITE_DONE⟩).1
      (Gsl.Reachable.step ⟨some 5, SQLITE_OK, [rd 5], SQLITE_DONE⟩ Gsl.Reachable.init
        (by decide))).2.2,
   ((capacity_invariant 2 ⟨[rd 5, rd 6], 2, 6⟩
      ⟨some 9, SQLITE_OK, [rd 7, rd 8, rd 9], SQLITE_DONE⟩).2
      (Vis.Reachable.step ⟨some 6, SQLITE_OK, [rd 6], SQLITE_DONE⟩
        (Vis.Reachable.step ⟨some 5, SQLITE_OK, [rd 5], SQLITE_DONE⟩ Vis.Reachable.init
          (show Vis.load_sensor_data 2 (State.init 2)
              ⟨some 5, SQLITE_OK, [rd 5], SQLITE_DONE⟩ = some ⟨[rd 5, rd 0], 1, 5⟩ by decide))
        (by decide))).2.2⟩

/-- C8: in both visualizers, for every reachable state and every fetched batch
of rows with positive timestamps, `load_sensor_data` returns with
`last_reading_timestamp` at least its value before the call, and when the call
accepted at least one row (which only the append branch does: `acc` lists the
rows counted by `new_readings`) it equals the timestamp of the last row
accepted. -/
theorem watermark_invariant (cap : Nat) (s : State) (f : Fetch)
    (hpos : ∀ r ∈ f.rows, 0 < r.timestamp) :
    (Gsl.Reachable cap s →
      ∃ s1 acc, Gsl.load_sensor_data_full cap s f = some (s1, acc) ∧
        s.last_reading_timestamp ≤ s1.last_reading_timestamp ∧
        ∀ h : acc ≠ [], s1.last_reading_timestamp = (acc.getLast h).timestamp) ∧
    (Vis.Reachable cap s →
      ∃ s1 acc, Vis.load_sensor_data_full cap s f = some (s1, acc) ∧
        s.last_reading_timestamp ≤ s1.last_reading_timestamp ∧
        ∀ h : acc ≠ [], s1.last_reading_timestamp = (acc.getLast h).timestamp) := by
  constructor
  · intro hr
    obtain ⟨hlen, hc⟩ := Gsl.reachable_wf cap s hr
    obtain ⟨s1, acc, h1, _, _, h4, h5, _⟩ := Gsl.gsl_load_full_spec cap s f hlen hc
    exact ⟨s1, acc, h1, h4, h5⟩
  · intro hr
    obtain ⟨hlen, hc, hw, hz⟩ := Vis.reachable_inv cap s hr
    obtain ⟨s1, acc, h1, _, h3, h4, _⟩ := Vis.vis_load_full_spec cap s f hlen hc hw hz
    exact ⟨s1, acc, h1, h3 hpos, fun h => (h4 h).2⟩

/-- Witness for C8: array size 2, buffer `[5]`, batch `[7, 6, 9]`: the first
visualizer accepts `7` only (then the buffer is full), the second accepts all
three rows. -/
theorem watermark_invariant_witness :
    (∃ s1 acc, Gsl.load_sensor_data_full 2 ⟨[rd 5, rd 0], 1, 5⟩
        ⟨some 9, SQLITE_OK, [rd 7, rd 6, rd 9], SQLITE_DONE⟩ = some (s1, acc) ∧
      (5 : Int) ≤ s1.last_reading_timestamp ∧
      ∀ h : acc ≠ [], s1.last_reading_timestamp = (acc.getLast h).timestamp) ∧
    (∃ s1 acc, Vis.load_sensor_data_full 2 ⟨[rd 5, rd 0], 1, 5⟩
        ⟨some 9, SQLITE_OK, [rd 7, rd 6, rd 9], SQLITE_DONE⟩ = some (s1, acc) ∧
      (5 : Int) ≤ s1.last_reading_timestamp ∧
      ∀ h : acc ≠ [], s1.last_reading_timestamp = (acc.getLast h).timestamp) :=
  ⟨(watermark_invariant 2 ⟨[rd 5, rd 0], 1, 5⟩
      ⟨some 9, SQLITE_OK, [rd 7, rd 6, rd 9], SQLITE_DONE⟩ (by decide)).1
      (Gsl.Reachable.step ⟨some 5, SQLITE_OK, [rd 5], SQLITE_DONE⟩ Gsl.Reachable.init
        (by decide)),
   (watermark_invariant 2 ⟨[rd 5, rd 0], 1, 5⟩
      ⟨some 9, SQLITE_OK, [rd 7, rd 6, rd 9], SQLITE_DONE⟩ (by decide)).2
      (Vis.Reachable.step ⟨some 5, SQLITE_OK, [rd 5], SQLITE_DONE⟩ Vis.Reachable.init
        (by decide))⟩

set_option maxRecDepth 16384

/-- C9 (counterexample): at program start, with one row of timestamp `5`
delivered and the next `sqlite3_step` returning the error code `1`
(`SQLITE_ERROR`), `load_sensor_data` of either visualizer has stored the row:
`reading_count` is `1` and the watermark is `5`, not the `0` of before the
call. -/
theorem step_error_keeps_rows :
    (⟨some 5, SQLITE_OK, [rd 5], 1⟩ : Fetch).final_rc ≠ SQLITE_DONE ∧
    (State.init Gsl.MAX_READINGS).reading_count = 0 ∧
    (State.init Gsl.MAX_READINGS).last_reading_timestamp = 0 ∧
    (Gsl.load_sensor_data Gsl.MAX_READINGS (State.init Gsl.MAX_READINGS)
        ⟨some 5, SQLITE_OK, [rd 5], 1⟩).map
      (fun s => (s.reading_count, s.last_reading_timestamp)) = some (1, 5) ∧
    (State.init Vis.MAX_READINGS).reading_count = 0 ∧
    (State.init Vis.MAX_READINGS).last_reading_timestamp = 0 ∧
    (Vis.load_sensor_data Vis.MAX_READINGS (State.init Vis.MAX_READINGS)
        ⟨some 5, SQLITE_OK, [rd 5], 1⟩).map
      (fun s => (s.reading_count, s.last_reading_timestamp)) = some (1, 5) := by
  refine ⟨by decide, rfl, rfl, ?_, rfl, rfl, by decide⟩
  decide

theorem State.eq_of_count_zero (s : State) (h0 : s.reading_count = 0) :
    ({ s with reading_count := 0 } : State) = s := by
  cases s; simp only at h0; subst h0; rfl

namespace Gsl

/-- An initial load that can store no row (no slot or no row) changes nothing. -/
theorem initial_load_nothing (cap : Nat) (rows : List SensorReading) (s : State)
    (h0 : s.reading_count = 0) (hn : cap = 0 ∨ rows = []) :
    initial_load cap rows s = some s := by
  have hs := s.eq_of_count_zero h0
  have hz : ¬ (s.reading_count > 0) := by omega
  have hloop : initial_loop cap rows s = some s := by
    cases rows with
    | nil => rfl
    | cons row rest =>
      have hc : cap = 0 := by
        rcases hn with h | h
        · exact h
        · exact absurd h (List.cons_ne_nil _ _)
      have hroom : ¬ (s.reading_count < cap) := by omega
      simp only [initial_loop, if_neg hroom]
  simp only [initial_load, hs, hloop, if_neg hz]

/-- One call of `load_sensor_data` of `sensor_gsl_visualizer.c` on a well-formed
state: the globals are left as they were exactly when no row was stored. -/
theorem gsl_load_full_frame (cap : Nat) (s : State) (f : Fetch)
    (hlen : s.readings.length = cap) (hc : s.reading_count ≤ cap) :
    ∃ s1 acc, load_sensor_data_full cap s f = some (s1, acc) ∧
      (0 < s.reading_count → (s1 = s ↔ acc = [])) ∧
      (s.reading_count = 0 → (s1 = s ↔ s1.reading_count = 0)) ∧
      (∀ r ∈ acc, s.last_reading_timestamp < r.timestamp ∧ r ∈ f.rows) ∧
      (s.reading_count = cap → s1 = s) ∧
      (f.rows = [] → s1 = s) := by
  have triv : ∀ h : load_sensor_data_full cap s f = some (s, []),
      ∃ s1 acc, load_sensor_data_full cap s f = some (s1, acc) ∧
        (0 < s.reading_count → (s1 = s ↔ acc = [])) ∧
        (s.reading_count = 0 → (s1 = s ↔ s1.reading_count = 0)) ∧
        (∀ r ∈ acc, s.last_reading_timestamp < r.timestamp ∧ r ∈ f.rows) ∧
        (s.reading_count = cap → s1 = s) ∧
        (f.rows = [] → s1 = s) := fun h =>
    ⟨s, [], h, fun _ => ⟨fun _ => rfl, fun _ => rfl⟩, fun h0 => ⟨fun _ => h0, fun _ => rfl⟩,
      fun r hr => by simp at hr, fun _ => rfl, fun _ => rfl⟩
  by_cases hp : f.probe.getD 0 ≤ s.last_reading_timestamp
  · exact triv (by simp only [load_sensor_data_full, if_pos hp])
  · by_cases hprep : f.prepare_rc ≠ SQLITE_OK
    · exact triv (by simp only [load_sensor_data_full, if_neg hp, if_pos hprep])
    · by_cases hpos : s.reading_count > 0
      · obtain ⟨s1, acc, h1, h2, h3, h4, h5, h6, h7, h8, h9, h10⟩ :=
          gsl_append_loop_spec cap f.rows s hlen hc
        have hnil : acc.length = 0 → acc = [] := List.eq_nil_of_length_eq_zero
        refine ⟨s1, acc,
          by simp only [load_sensor_data_full, if_neg hp, if_neg hprep, if_pos hpos, h1],
          fun _ => ⟨fun he => ?_, h7⟩, fun h0 => absurd h0 (by omega), h10, fun hfull => ?_,
          fun hrows => ?_⟩
        · apply hnil
          rw [he] at h3
          omega
        · exact h7 (hnil (by omega))
        · apply h7
          cases acc with
          | nil => rfl
          | cons r t =>
            have := (h10 r (List.mem_cons_self _ _)).2
            rw [hrows] at this
            simp at this
      · have h0 : s.reading_count = 0 := by omega
        by_cases hn : cap = 0 ∨ f.rows = []
        · exact triv (by
            simp only [load_sensor_data_full, if_neg hp, if_neg hprep, if_neg hpos,
              initial_load_nothing cap f.rows s h0 hn])
        · obtain ⟨s1, h1, h2, h3, _⟩ := initial_load_spec cap f.rows s hlen h0
          have hrl : 0 < f.rows.length :=
            List.length_pos.mpr (fun h => hn (Or.inr h))
          have hc1 : 0 < s1.reading_count := by rw [h3]; omega
          have hne : s1 ≠ s := by
            intro he
            rw [he] at hc1
            omega
          refine ⟨s1, [],
            by simp only [load_sensor_data_full, if_neg hp, if_neg hprep, if_neg hpos, h1],
            fun h => absurd h hpos, fun _ => ⟨fun he => absurd he hne, fun h => by omega⟩,
            fun r hr => by simp at hr, fun hfull => absurd (Or.inl (by omega)) hn,
            fun hrows => absurd (Or.inr hrows) hn⟩

end Gsl

namespace Vis

/-- A fill loop that can store no row (no slot or no row) changes nothing. -/
theorem initial_loop_nothing (cap : Nat) (rows : List SensorReading) (s : State)
    (h0 : s.reading_count = 0) (hn : cap = 0 ∨ rows = []) :
    initial_loop cap rows s = some s := by
  cases rows with
  | nil => rfl
  | cons row rest =>
    have hc : cap = 0 := by
      rcases hn with h | h
      · exact h
      · exact absurd h (List.cons_ne_nil _ _)
    have hroom : ¬ (s.reading_count < cap) := by omega
    simp only [initial_loop, if_neg hroom]

/-- One call of `load_sensor_data` of `sensor_visualizer.c` on a well-formed state
whose watermark is the timestamp of its last reading: the globals are left as
they were exactly when no row was stored. -/
theorem vis_load_full_frame (cap : Nat) (s : State) (f : Fetch)
    (hlen : s.readings.length = cap) (hc : s.reading_count ≤ cap)
    (hw : s.reading_count > 0 →
      ∃ r, s.readings[s.reading_count - 1]? = some r ∧
        r.timestamp = s.last_reading_timestamp) :
    ∃ s1 acc, load_sensor_data_full cap s f = some (s1, acc) ∧
      (0 < s.reading_count → (s1 = s ↔ acc = [])) ∧
      (s.reading_count = 0 → (s1 = s ↔ s1.reading_count = 0)) ∧
      (∀ r ∈ acc, s.last_reading_timestamp < r.timestamp ∧ r ∈ f.rows) ∧
      (f.rows = [] → s1 = s) := by
  have triv : ∀ h : load_sensor_data_full cap s f = some (s, []),
      ∃ s1 acc, load_sensor_data_full cap s f = some (s1, acc) ∧
        (0 < s.reading_count → (s1 = s ↔ acc = [])) ∧
        (s.reading_count = 0 → (s1 = s ↔ s1.reading_count = 0)) ∧
        (∀ r ∈ acc, s.last_reading_timestamp < r.timestamp ∧ r ∈ f.rows) ∧
        (f.rows = [] → s1 = s) := fun h =>
    ⟨s, [], h, fun _ => ⟨fun _ => rfl, fun _ => rfl⟩, fun h0 => ⟨fun _ => h0, fun _ => rfl⟩,
      fun r hr => by simp at hr, fun _ => rfl⟩
  by_cases hp : f.probe.getD 0 ≤ s.last_reading_timestamp
  · exact triv (by simp only [load_sensor_data_full, if_pos hp])
  · by_cases hprep : f.prepare_rc ≠ SQLITE_OK
    · exact triv (by simp only [load_sensor_data_full, if_neg hp, if_pos hprep])
    · by_cases hpos : s.reading_count > 0
      · have hcap : 1 ≤ cap := by omega
        by_cases hacc : (f.rows.filter fun r =>
            decide (s.last_reading_timestamp < r.timestamp)) = []
        · have hstale : ∀ r ∈ f.rows, r.timestamp ≤ s.last_reading_timestamp := by
            intro r hr
            by_contra hcon
            have : r ∈ f.rows.filter fun r =>
                decide (s.last_reading_timestamp < r.timestamp) := by
              rw [List.mem_filter]; exact ⟨hr, by simp; omega⟩
            rw [hacc] at this
            simp at this
          exact triv (by
            simp only [load_sensor_data_full, if_neg hp, if_neg hprep, if_pos hpos,
              vis_append_loop_stale cap f.rows s hstale, update_last_fix s hw])
        · obtain ⟨s1, h1, h2, h3, h4, h5⟩ := vis_append_loop_spec cap hcap f.rows s hlen hc
          have hal : 0 < (f.rows.filter fun r =>
              decide (s.last_reading_timestamp < r.timestamp)).length :=
            List.length_pos.mpr hacc
          have hil : s.items.length = s.reading_count := s.length_items (by omega)
          have hc1 : 1 ≤ s1.reading_count ∧ s1.reading_count ≤ cap := by
            rw [h4]; omega
          have hlast : s1.readings[s1.reading_count - 1]? =
              some ((f.rows.filter fun r =>
                decide (s.last_reading_timestamp < r.timestamp)).getLast hacc) := by
            have e : s1.readings[s1.reading_count - 1]? =
                s1.items[s1.reading_count - 1]? := by
              simp only [State.items]
              rw [List.getElem?_take, if_pos (by omega)]
            rw [e, h5]
            apply last_of_drop
            rw [hil, h4]; omega
          obtain ⟨r, hr, hu⟩ := update_last_spec s1 hc1.1 (by omega)
          rw [hlast] at hr
          have hre := Option.some.inj hr
          have hmem := List.getLast_mem hacc
          rw [List.mem_filter] at hmem
          have hgt : s.last_reading_timestamp < r.timestamp := by
            rw [← hre]; simpa using hmem.2
          have hne : ({ s1 with last_reading_timestamp := r.timestamp } : State) ≠ s := by
            intro he
            have : r.timestamp = s.last_reading_timestamp := by
              rw [← he]
            omega
          refine ⟨{ s1 with last_reading_timestamp := r.timestamp }, _,
            by simp only [load_sensor_data_full, if_neg hp, if_neg hprep, if_pos hpos, h1, hu],
            fun _ => ⟨fun he => absurd he hne, fun h => absurd h hacc⟩,
            fun h0 => absurd h0 (by omega), fun x hx => ?_, fun hrows => ?_⟩
          · rw [List.mem_filter] at hx
            exact ⟨by simpa using hx.2, hx.1⟩
          · rw [hrows] at hacc
            exact absurd rfl hacc
      · have h0 : s.reading_count = 0 := by omega
        have hs := s.eq_of_count_zero h0
        by_cases hn : cap = 0 ∨ f.rows = []
        · have hu : update_last s = some s := by simp only [update_last, if_neg hpos]
          exact triv (by
            simp only [load_sensor_data_full, if_neg hp, if_neg hprep, if_neg hpos, hs,
              initial_loop_nothing cap f.rows s h0 hn, hu])
        · obtain ⟨s1, h1, h2, h3, _⟩ := vis_initial_loop_spec cap f.rows s hlen hc
          have hrl : 0 < f.rows.length :=
            List.length_pos.mpr (fun h => hn (Or.inr h))
          have hc1 : 0 < s1.reading_count := by rw [h3]; omega
          obtain ⟨r, hr, hu⟩ := update_last_spec s1 (by omega) (by omega)
          have hne : ({ s1 with last_reading_timestamp := r.timestamp } : State) ≠ s := by
            intro he
            have : s1.reading_count = s.reading_count := by rw [← he]
            omega
          refine ⟨{ s1 with last_reading_timestamp := r.timestamp }, [],
            by simp only [load_sensor_data_full, if_neg hp, if_neg hprep, if_neg hpos, hs, h1,
              hu],
            fun h => absurd h hpos,
            fun _ => ⟨fun he => absurd he hne, fun h => ?_⟩,
            fun x hx => by simp at hx, fun hrows => absurd (Or.inr hrows) hn⟩
          have : s1.reading_count = 0 := h
          omega

end Vis

/-- C9 (amended): failure of the fetch in `load_sensor_data` of both
visualizers.  When `sqlite3_prepare_v2` of the fetch returns a code other than
`SQLITE_OK`, the globals are left as they were, in every state.  When the
stepping ends with a code other than `SQLITE_DONE`, then in every reachable state
the call returns and `readings`, `reading_count` and `last_reading_timestamp` are
identical to their values before the call if and only if no row was stored
during it: in the append branch if and only if no row was accepted (`acc`, the
rows counted by `new_readings`, is empty), in the initial-load branch if and
only if `reading_count` is still `0`.  In particular they are identical when
every delivered row is stale (timestamp `<=` the watermark), when no row was
delivered, and in `sensor_gsl_visualizer.c` when the buffer is full.  Rows stored
before the failing step are kept: there is no rollback. -/
theorem failed_fetch_frame (cap : Nat) (s : State) (f : Fetch) :
    (f.prepare_rc ≠ SQLITE_OK →
      Gsl.load_sensor_data cap s f = some s ∧ Vis.load_sensor_data cap s f = some s) ∧
    (f.final_rc ≠ SQLITE_DONE → Gsl.Reachable cap s →
      ∃ s1 acc, Gsl.load_sensor_data_full cap s f = some (s1, acc) ∧
        (0 < s.reading_count → (s1 = s ↔ acc = [])) ∧
        (s.reading_count = 0 → (s1 = s ↔ s1.reading_count = 0)) ∧
        ((∀ r ∈ f.rows, r.timestamp ≤ s.last_reading_timestamp) →
          0 < s.reading_count → s1 = s) ∧
        (s.reading_count = cap → s1 = s) ∧
        (f.rows = [] → s1 = s)) ∧
    (f.final_rc ≠ SQLITE_DONE → Vis.Reachable cap s →
      ∃ s1 acc, Vis.load_sensor_data_full cap s f = some (s1, acc) ∧
        (0 < s.reading_count → (s1 = s ↔ acc = [])) ∧
        (s.reading_count = 0 → (s1 = s ↔ s1.reading_count = 0)) ∧
        ((∀ r ∈ f.rows, r.timestamp ≤ s.last_reading_timestamp) →
          0 < s.reading_count → s1 = s) ∧
        (f.rows = [] → s1 = s)) := by
  have stale : ∀ (acc : List SensorReading),
      (∀ r ∈ acc, s.last_reading_timestamp < r.timestamp ∧ r ∈ f.rows) →
      (∀ r ∈ f.rows, r.timestamp ≤ s.last_reading_timestamp) → acc = [] := by
    intro acc hacc hst
    cases acc with
    | nil => rfl
    | cons r t =>
      have h1 := hacc r (List.mem_cons_self _ _)
      have h2 := hst r h1.2
      omega
  refine ⟨fun hprep => ⟨?_, ?_⟩, fun _ hr => ?_, fun _ hr => ?_⟩
  · unfold Gsl.load_sensor_data Gsl.load_sensor_data_full
    by_cases hp : f.probe.getD 0 ≤ s.last_reading_timestamp
    · simp only [if_pos hp, Option.map_some']
    · simp only [if_neg hp, if_pos hprep, Option.map_some']
  · unfold Vis.load_sensor_data Vis.load_sensor_data_full
    by_cases hp : f.probe.getD 0 ≤ s.last_reading_timestamp
    · simp only [if_pos hp, Option.map_some']
    · simp only [if_neg hp, if_pos hprep, Option.map_some']
  · obtain ⟨hlen, hc⟩ := Gsl.reachable_wf cap s hr
    obtain ⟨s1, acc, h1, h2, h3, h4, h5, h6⟩ := Gsl.gsl_load_full_frame cap s f hlen hc
    exact ⟨s1, acc, h1, h2, h3, fun hst hpos => (h2 hpos).mpr (stale acc h4 hst), h5, h6⟩
  · obtain ⟨hlen, hc, hw, _⟩ := Vis.reachable_inv cap s hr
    obtain ⟨s1, acc, h1, h2, h3, h4, h5⟩ := Vis.vis_load_full_frame cap s f hlen hc hw
    exact ⟨s1, acc, h1, h2, h3, fun hst hpos => (h2 hpos).mpr (stale acc h4 hst), h5⟩

/-- Witness for C9 (amended): array size 2, buffer `[5]` with watermark `5`.
A fetch whose prepare fails with code `1` changes nothing; a fetch that delivers
the stale row `4` and then fails with step code `1` accepts no row and changes
nothing, in either visualizer. -/
theorem failed_fetch_frame_witness :
    (Gsl.load_sensor_data 2 ⟨[rd 5, rd 0], 1, 5⟩ ⟨some 9, 1, [rd 7], 1⟩ =
        some ⟨[rd 5, rd 0], 1, 5⟩ ∧
      Vis.load_sensor_data 2 ⟨[rd 5, rd 0], 1, 5⟩ ⟨some 9, 1, [rd 7], 1⟩ =
        some ⟨[rd 5, rd 0], 1, 5⟩) ∧
    Gsl.load_sensor_data_full 2 ⟨[rd 5, rd 0], 1, 5⟩ ⟨some 9, SQLITE_OK, [rd 4], 1⟩ =
      some (⟨[rd 5, rd 0], 1, 5⟩, []) ∧
    Vis.load_sensor_data_full 2 ⟨[rd 5, rd 0], 1, 5⟩ ⟨some 9, SQLITE_OK, [rd 4], 1⟩ =
      some (⟨[rd 5, rd 0], 1, 5⟩, []) := by
  refine ⟨(failed_fetch_frame 2 ⟨[rd 5, rd 0], 1, 5⟩ ⟨some 9, 1, [rd 7], 1⟩).1 (by decide),
    ?_, ?_⟩
  · obtain ⟨s1, acc, h1, h2, _, h4, _⟩ :=
      (failed_fetch_frame 2 ⟨[rd 5, rd 0], 1, 5⟩ ⟨some 9, SQLITE_OK, [rd 4], 1⟩).2.1
        (by decide)
        (Gsl.Reachable.step ⟨some 5, SQLITE_OK, [rd 5], SQLITE_DONE⟩ Gsl.Reachable.init
          (by decide))
    have e : s1 = ⟨[rd 5, rd 0], 1, 5⟩ := h4 (by decide) (by decide)
    have ea : acc = [] := (h2 (by decide)).mp e
    rw [h1, e, ea]
  · obtain ⟨s1, acc, h1, h2, _, h4, _⟩ :=
      (failed_fetch_frame 2 ⟨[rd 5, rd 0], 1, 5⟩ ⟨some 9, SQLITE_OK, [rd 4], 1⟩).2.2
        (by decide)
        (Vis.Reachable.step ⟨some 5, SQLITE_OK, [rd 5], SQLITE_DONE⟩ Vis.Reachable.init
          (by decide))
    have e : s1 = ⟨[rd 5, rd 0], 1, 5⟩ := h4 (by decide) (by decide)
    have ea : acc = [] := (h2 (by decide)).mp e
    rw [h1, e, ea]

/-- C10: in both visualizers, for every state, when the probed maximum store
timestamp (`0` when the probe query fails or yields nothing) is `<=`
`last_reading_timestamp`, `load_sensor_data` leaves `readings`, `reading_count`
and `last_reading_timestamp` as they were; in particular at program start with
an empty store (probe value `0`) the buffer stays empty and the watermark stays
`0`. -/
theorem probe_noop (cap : Nat) (s : State) (f : Fetch) :
    (f.probe.getD 0 ≤ s.last_reading_timestamp →
      Gsl.load_sensor_data cap s f = some s ∧ Vis.load_sensor_data cap s f = some s) ∧
    (f.probe.getD 0 = 0 →
      Gsl.load_sensor_data cap (State.init cap) f = some (State.init cap) ∧
      Vis.load_sensor_data cap (State.init cap) f = some (State.init cap)) := by
  have key : ∀ t : State, f.probe.getD 0 ≤ t.last_reading_timestamp →
      Gsl.load_sensor_data cap t f = some t ∧ Vis.load_sensor_data cap t f = some t := by
    intro t hp
    constructor
    · simp only [Gsl.load_sensor_data, Gsl.load_sensor_data_full, if_pos hp, Option.map_some']
    · simp only [Vis.load_sensor_data, Vis.load_sensor_data_full, if_pos hp, Option.map_some']
  refine ⟨key s, fun h0 => key (State.init cap) ?_⟩
  rw [h0]
  exact le_refl _

/-- Witness for C10: array size 2, buffer `[5]` with watermark `5` and a store
whose newest row has timestamp `5`; and the start state with an empty store. -/
theorem probe_noop_witness :
    (Gsl.load_sensor_data 2 ⟨[rd 5, rd 0], 1, 5⟩ ⟨some 5, SQLITE_OK, [rd 5], SQLITE_DONE⟩ =
        some ⟨[rd 5, rd 0], 1, 5⟩ ∧
      Vis.load_sensor_data 2 ⟨[rd 5, rd 0], 1, 5⟩ ⟨some 5, SQLITE_OK, [rd 5], SQLITE_DONE⟩ =
        some ⟨[rd 5, rd 0], 1, 5⟩) ∧
    (Gsl.load_sensor_data 2 (State.init 2) ⟨some 0, SQLITE_OK, [], SQLITE_DONE⟩ =
        some (State.init 2) ∧
      Vis.load_sensor_data 2 (State.init 2) ⟨some 0, SQLITE_OK, [], SQLITE_DONE⟩ =
        some (State.init 2)) :=
  ⟨(probe_noop 2 ⟨[rd 5, rd 0], 1, 5⟩ ⟨some 5, SQLITE_OK, [rd 5], SQLITE_DONE⟩).1 (by decide),
   (probe_noop 2 ⟨[rd 5, rd 0], 1, 5⟩ ⟨some 0, SQLITE_OK, [], SQLITE_DONE⟩).2 (by decide)⟩

theorem wrq_eq_some {a : List ℚ} {i : Nat} {x : ℚ} (h : i < a.length) :
    wrq a i x = some (a.set i x) := by
  simp [wrq, h]

theorem rdq_ofNat (values : List ℚ) (k : Nat) : rdq values (Int.ofNat k) = values[k]? := by
  have h : (0 : Int) ≤ Int.ofNat k := Int.ofNat_nonneg k
  simp only [rdq, if_pos h]
  rfl

/-- The inner loop started at array position `k = i + j` adds the `n` values
`values[k], ..., values[k+n-1]` to `sum`. -/
theorem window_sum_spec (values : List ℚ) (i : Nat) :
    ∀ (n : Nat) (j : Int) (k : Nat) (sum : ℚ),
      Int.ofNat i + j = Int.ofNat k → k + n ≤ values.length →
      window_sum values i n j sum = some (sum + ((values.drop k).take n).sum) := by
  intro n
  induction n with
  | zero =>
    intro j k sum _ _
    simp [window_sum]
  | succ n ih =>
    intro j k sum hk hlen
    have hlt : k < values.length := by omega
    have hk1 : Int.ofNat i + (j + 1) = Int.ofNat (k + 1) := by
      have : Int.ofNat (k + 1) = Int.ofNat k + 1 := rfl
      omega
    simp only [window_sum, hk, rdq_ofNat, List.getElem?_eq_getElem hlt]
    rw [ih (j + 1) (k + 1) (sum + values[k]) hk1 (by omega),
      List.drop_eq_getElem_cons hlt, List.take_succ_cons, List.sum_cons, add_assoc]

/-- The outer loop of the moving average: it never fails when every window lies
inside `values` and every assigned index inside `moving_avg`; it assigns exactly
the indices `i, ..., i+n-1`, each with its window sum divided by `w`. -/
theorem moving_avg_loop_spec (w : Nat) (values : List ℚ) :
    ∀ (n i : Nat) (ma : List ℚ),
      w / 2 ≤ i → i + n + w / 2 ≤ values.length → i + n ≤ ma.length →
      ∃ ma1, moving_avg_loop w values n i ma = some (ma1, List.range' i n) ∧
        ma1.length = ma.length ∧
        ∀ k, ma1[k]? =
          if i ≤ k ∧ k < i + n then
            some (((values.drop (k - w / 2)).take (2 * (w / 2) + 1)).sum / (w : ℚ))
          else ma[k]? := by
  intro n
  induction n with
  | zero =>
    intro i ma _ _ _
    refine ⟨ma, rfl, rfl, fun k => ?_⟩
    have : ¬ (i ≤ k ∧ k < i + 0) := by omega
    rw [if_neg this]
  | succ n ih =>
    intro i ma hi hv hm
    have hsum := window_sum_spec values i (2 * (w / 2) + 1) (-Int.ofNat (w / 2))
      (i - w / 2) 0 (by
        have e : Int.ofNat (i - w / 2) = Int.ofNat i - Int.ofNat (w / 2) :=
          Int.ofNat_sub hi
        omega) (by omega)
    have hlt : i < ma.length := by omega
    obtain ⟨ma1, h1, h2, h3⟩ := ih (i + 1)
      (ma.set i ((0 + ((values.drop (i - w / 2)).take (2 * (w / 2) + 1)).sum) / (w : ℚ)))
      (by omega) (by omega) (by rw [List.length_set]; omega)
    refine ⟨ma1, ?_, by rw [h2, List.length_set], ?_⟩
    · simp only [moving_avg_loop, hsum, wrq_eq_some hlt, h1]
      rfl
    · intro k
      rw [h3 k]
      by_cases hk : k = i
      · have c1 : ¬ (i + 1 ≤ k ∧ k < i + 1 + n) := by omega
        have c2 : i ≤ k ∧ k < i + (n + 1) := by omega
        rw [if_neg c1, if_pos c2, hk, List.getElem?_set_self hlt, zero_add]
      · by_cases c1 : i + 1 ≤ k ∧ k < i + 1 + n
        · have c2 : i ≤ k ∧ k < i + (n + 1) := by omega
          rw [if_pos c1, if_pos c2]
        · have c2 : ¬ (i ≤ k ∧ k < i + (n + 1)) := by omega
          rw [if_neg c1, if_neg c2, List.getElem?_set_ne (fun h => hk h.symm)]

/-- The moving-average block on `count` values, `count <= cap`: it returns, the
assigned indices are `w/2, ..., count - w/2 - 1` when `count >= w` and none
otherwise, and every other slot keeps the initial `0`. -/
theorem moving_average_spec (w cap : Nat) (values : List ℚ) (count : Nat)
    (hlen : values.length = count) (hc : count ≤ cap) :
    ∃ ma, moving_average w cap values count =
        some (ma, if w ≤ count then List.range' (w / 2) (count - w / 2 - w / 2) else []) ∧
      ma.length = cap ∧
      ∀ k, ma[k]? =
        if w ≤ count ∧ w / 2 ≤ k ∧ k < count - w / 2 then
          some (((values.drop (k - w / 2)).take (2 * (w / 2) + 1)).sum / (w : ℚ))
        else if k < cap then some 0 else none := by
  by_cases hw : w ≤ count
  · obtain ⟨ma, h1, h2, h3⟩ := moving_avg_loop_spec w values (count - w / 2 - w / 2) (w / 2)
      (List.replicate cap 0) (le_refl _) (by omega) (by rw [List.length_replicate]; omega)
    have hge : count ≥ w := hw
    refine ⟨ma, by simp only [moving_average, if_pos hge, if_pos hw, h1],
      by rw [h2, List.length_replicate], fun k => ?_⟩
    rw [h3 k, List.getElem?_replicate]
    by_cases c : w / 2 ≤ k ∧ k < w / 2 + (count - w / 2 - w / 2)
    · have c2 : w ≤ count ∧ w / 2 ≤ k ∧ k < count - w / 2 := by omega
      rw [if_pos c, if_pos c2]
    · have c2 : ¬ (w ≤ count ∧ w / 2 ≤ k ∧ k < count - w / 2) := by omega
      rw [if_neg c, if_neg c2]
  · have hge : ¬ (count ≥ w) := hw
    refine ⟨List.replicate cap 0, by simp only [moving_average, if_neg hge, if_neg hw],
      List.length_replicate _ _, fun k => ?_⟩
    have c2 : ¬ (w ≤ count ∧ w / 2 ≤ k ∧ k < count - w / 2) := fun h => hw h.1
    rw [if_neg c2, List.getElem?_replicate]

theorem mem_drawn_avg_indices (w count i : Nat) :
    i ∈ drawn_avg_indices w count ↔ w / 2 ≤ i ∧ i + w / 2 < count := by
  simp only [drawn_avg_indices, List.mem_filter, List.mem_range, decide_eq_true_eq]
  have e1 : ∀ n : Nat, Int.ofNat n = (n : Int) := fun _ => rfl
  rw [e1, e1, e1]
  omega

/-- C11: the centred moving average of `draw_graph` in `sensor_gsl_visualizer.c`,
with an odd window width `w` and exact arithmetic: for `count >= w` values,
`moving_avg[i]` is `(values[i - w/2] + ... + values[i + w/2]) / w` for every `i`
with `w/2 <= i < count - w/2`, every other slot of `moving_avg` keeps the initial
`0`, and the assigned indices are exactly those `i`. -/
theorem moving_average_centered (w cap : Nat) (values : List ℚ) (count : Nat)
    (hodd : w % 2 = 1) (hlen : values.length = count) (hw : w ≤ count)
    (hc : count ≤ cap) :
    ∃ ma idx, moving_average w cap values count = some (ma, idx) ∧
      ma.length = cap ∧
      (∀ i, w / 2 ≤ i → i < count - w / 2 →
        ma[i]? = some (((values.drop (i - w / 2)).take w).sum / (w : ℚ))) ∧
      (∀ i, i < cap → ¬ (w / 2 ≤ i ∧ i < count - w / 2) → ma[i]? = some 0) ∧
      (∀ i, i ∈ idx ↔ w / 2 ≤ i ∧ i < count - w / 2) := by
  obtain ⟨ma, h1, h2, h3⟩ := moving_average_spec w cap values count hlen hc
  rw [if_pos hw] at h1
  have e : 2 * (w / 2) + 1 = w := by omega
  refine ⟨ma, _, h1, h2, ?_, ?_, ?_⟩
  · intro i hi1 hi2
    rw [h3 i, if_pos ⟨hw, hi1, hi2⟩, e]
  · intro i hi hn
    have c : ¬ (w ≤ count ∧ w / 2 ≤ i ∧ i < count - w / 2) := fun h => hn h.2
    rw [h3 i, if_neg c, if_pos hi]
  · intro i
    rw [List.mem_range'_1]
    omega

/-- Witness for C11: window 3 over `[1, 2, 3, 4, 5]`: indices 1, 2, 3 hold
2, 3, 4 and indices 0 and 4 hold the initial 0. -/
theorem moving_average_centered_witness :
    ∃ ma idx, moving_average 3 5 [1, 2, 3, 4, 5] 5 = some (ma, idx) ∧
      ma[0]? = some 0 ∧ ma[1]? = some 2 ∧ ma[2]? = some 3 ∧ ma[3]? = some 4 ∧
      ma[4]? = some 0 ∧ ∀ i, i ∈ idx ↔ 1 ≤ i ∧ i < 4 := by
  obtain ⟨ma, idx, h1, _, h3, h4, h5⟩ :=
    moving_average_centered 3 5 [1, 2, 3, 4, 5] 5 (by decide) (by decide) (by decide)
      (by decide)
  refine ⟨ma, idx, h1, h4 0 (by decide) (by decide), ?_, ?_, ?_,
    h4 4 (by decide) (by decide), h5⟩
  · rw [h3 1 (by decide) (by decide)]; norm_num
  · rw [h3 2 (by decide) (by decide)]; norm_num
  · rw [h3 3 (by decide) (by decide)]; norm_num

/-- C12: in `draw_graph` of `sensor_gsl_visualizer.c`, for `count >= 2`, every
index at which the drawing loop reads `moving_avg[i]` was assigned by the
computation loop; when `count < w` the drawing loop reads no index, and when
`count >= w` the indices read are exactly the indices assigned.  Here `w` is
`MOVING_AVG_WINDOW`. -/
theorem sentinel_never_drawn (w cap : Nat) (values : List ℚ) (count : Nat)
    (_h2 : 2 ≤ count) (hlen : values.length = count) (hc : count ≤ cap) :
    ∃ ma idx, moving_average w cap values count = some (ma, idx) ∧
      (∀ i ∈ drawn_avg_indices w count, i ∈ idx) ∧
      (count < w → drawn_avg_indices w count = []) ∧
      (w ≤ count → ∀ i, i ∈ drawn_avg_indices w count ↔ i ∈ idx) := by
  obtain ⟨ma, h1, _, _⟩ := moving_average_spec w cap values count hlen hc
  refine ⟨ma, _, h1, ?_, ?_, ?_⟩
  · intro i hi
    rw [mem_drawn_avg_indices] at hi
    have hw : w ≤ count := by omega
    rw [if_pos hw, List.mem_range'_1]
    omega
  · intro hlt
    rw [List.eq_nil_iff_forall_not_mem]
    intro i hi
    rw [mem_drawn_avg_indices] at hi
    omega
  · intro hw i
    rw [mem_drawn_avg_indices, if_pos hw, List.mem_range'_1]
    omega

/-- Witness for C12: window 7 and array size 500 as in the source, on 9 values
(indices 3, 4, 5 are assigned and drawn). -/
theorem sentinel_never_drawn_witness :
    ∃ ma idx, moving_average Gsl.MOVING_AVG_WINDOW Gsl.MAX_READINGS
        [1, 2, 3, 4, 5, 6, 7, 8, 9] 9 = some (ma, idx) ∧
      (∀ i ∈ drawn_avg_indices Gsl.MOVING_AVG_WINDOW 9, i ∈ idx) ∧
      (9 < Gsl.MOVING_AVG_WINDOW → drawn_avg_indices Gsl.MOVING_AVG_WINDOW 9 = []) ∧
      (Gsl.MOVING_AVG_WINDOW ≤ 9 →
        ∀ i, i ∈ drawn_avg_indices Gsl.MOVING_AVG_WINDOW 9 ↔ i ∈ idx) :=
  sentinel_never_drawn Gsl.MOVING_AVG_WINDOW Gsl.MAX_READINGS [1, 2, 3, 4, 5, 6, 7, 8, 9] 9
    (by decide) (by decide) (by decide)

/-- C16: index safety of the moving-average loops of `draw_graph` in
`sensor_gsl_visualizer.c`.  For `w <= count <= cap` (`w` the window width, `cap`
the size of `moving_avg`) on an array of exactly `count` values the block
returns, so no read `values[i + j]` and no write `moving_avg[i]` was out of
bounds; explicitly, every assigned index `i` is `< cap`, and for every `j` from
`-(w/2)` to `w/2` the read index satisfies `0 <= i + j < count`. -/
theorem moving_average_index_safe (w cap : Nat) (values : List ℚ) (count : Nat)
    (hlen : values.length = count) (hw : w ≤ count) (hc : count ≤ cap) :
    ∃ ma idx, moving_average w cap values count = some (ma, idx) ∧
      (∀ i, i ∈ idx ↔ w / 2 ≤ i ∧ i < count - w / 2) ∧
      ∀ i ∈ idx, i < cap ∧
        ∀ j : Int, -Int.ofNat (w / 2) ≤ j → j ≤ Int.ofNat (w / 2) →
          0 ≤ Int.ofNat i + j ∧ Int.ofNat i + j < Int.ofNat count := by
  obtain ⟨ma, h1, _, _⟩ := moving_average_spec w cap values count hlen hc
  rw [if_pos hw] at h1
  refine ⟨ma, _, h1, ?_, ?_⟩
  · intro i
    rw [List.mem_range'_1]
    omega
  · intro i hi
    rw [List.mem_range'_1] at hi
    refine ⟨by omega, fun j hj1 hj2 => ?_⟩
    have e1 : ∀ n : Nat, Int.ofNat n = (n : Int) := fun _ => rfl
    rw [e1] at hj1 hj2
    rw [e1, e1]
    omega

/-- Witness for C16: window 7 and array size 500 as in the source, on 9 values. -/
theorem moving_average_index_safe_witness :
    ∃ ma idx, moving_average Gsl.MOVING_AVG_WINDOW Gsl.MAX_READINGS
        [1, 2, 3, 4, 5, 6, 7, 8, 9] 9 = some (ma, idx) ∧
      (∀ i, i ∈ idx ↔ Gsl.MOVING_AVG_WINDOW / 2 ≤ i ∧ i < 9 - Gsl.MOVING_AVG_WINDOW / 2) ∧
      ∀ i ∈ idx, i < Gsl.MAX_READINGS ∧
        ∀ j : Int, -Int.ofNat (Gsl.MOVING_AVG_WINDOW / 2) ≤ j →
          j ≤ Int.ofNat (Gsl.MOVING_AVG_WINDOW / 2) →
          0 ≤ Int.ofNat i + j ∧ Int.ofNat i + j < Int.ofNat 9 :=
  moving_average_index_safe Gsl.MOVING_AVG_WINDOW Gsl.MAX_READINGS
    [1, 2, 3, 4, 5, 6, 7, 8, 9] 9 (by decide) (by decide) (by decide)

theorem copy_loop_spec (values : List ℚ) :
    ∀ (n i : Nat) (sv : List ℚ),
      i + n ≤ values.length → i + n ≤ sv.length →
      ∃ sv1, copy_loop values n i sv = some sv1 ∧ sv1.length = sv.length ∧
        ∀ k, sv1[k]? = if i ≤ k ∧ k < i + n then values[k]? else sv[k]? := by
  intro n
  induction n with
  | zero =>
    intro i sv _ _
    refine ⟨sv, rfl, rfl, fun k => ?_⟩
    have : ¬ (i ≤ k ∧ k < i + 0) := by omega
    rw [if_neg this]
  | succ n ih =>
    intro i sv hv hs
    have hlv : i < values.length := by omega
    have hls : i < sv.length := by omega
    obtain ⟨sv1, h1, h2, h3⟩ := ih (i + 1) (sv.set i values[i]) (by omega)
      (by rw [List.length_set]; omega)
    refine ⟨sv1, ?_, by rw [h2, List.length_set], fun k => ?_⟩
    · simp only [copy_loop, List.getElem?_eq_getElem hlv, wrq_eq_some hls, h1]
    · rw [h3 k]
      by_cases hk : k = i
      · have c1 : ¬ (i + 1 ≤ k ∧ k < i + 1 + n) := by omega
        have c2 : i ≤ k ∧ k < i + (n + 1) := by omega
        rw [if_neg c1, if_pos c2, hk, List.getElem?_set_self hls,
          List.getElem?_eq_getElem hlv]
      · by_cases c1 : i + 1 ≤ k ∧ k < i + 1 + n
        · have c2 : i ≤ k ∧ k < i + (n + 1) := by omega
          rw [if_pos c1, if_pos c2]
        · have c2 : ¬ (i ≤ k ∧ k < i + (n + 1)) := by omega
          rw [if_neg c1, if_neg c2, List.getElem?_set_ne (fun h => hk h.symm)]

/-- The copy loop over all `count` values fills the fresh block with `values`. -/
theorem copy_loop_all (values buf : List ℚ) (count : Nat)
    (hlen : values.length = count) (hbuf : buf.length = count) :
    copy_loop values count 0 buf = some values := by
  obtain ⟨sv1, h1, h2, h3⟩ := copy_loop_spec values count 0 buf (by omega) (by omega)
  rw [h1]
  congr 1
  apply List.ext_getElem?
  intro k
  rw [h3 k]
  by_cases c : 0 ≤ k ∧ k < 0 + count
  · rw [if_pos c]
  · rw [if_neg c, List.getElem?_eq_none (by omega), List.getElem?_eq_none (by omega)]

theorem gsl_sort_float_all (values : List ℚ) (count : Nat) (hlen : values.length = count) :
    gsl_sort_float values count = values.insertionSort (fun a b => a ≤ b) := by
  simp only [gsl_sort_float]
  rw [List.take_of_length_le (by omega), List.drop_of_length_le (by omega), List.append_nil]

/-- C13: the median block of `draw_graph` in `sensor_gsl_visualizer.c` on a
non-empty array of `count` values, whatever the fresh block `buf` holds: it
returns, the `values` array is unchanged, and the result is the middle element
of the ascending sort of the values when `count` is odd and the average of the
two middle elements when `count` is even; `median([1,2,3,4]) = 5/2` and
`median([5,1,3]) = 3`. -/
theorem median_of_sorted_copy (values buf : List ℚ) (count : Nat)
    (hpos : 1 ≤ count) (hlen : values.length = count) (hbuf : buf.length = count) :
    (∃ (m : ℚ) (sorted : List ℚ), draw_graph_median values count buf = some (values, m) ∧
      sorted.Sorted (fun a b => a ≤ b) ∧ sorted.Perm values ∧
      (count % 2 = 1 → sorted[count / 2]? = some m) ∧
      (count % 2 = 0 →
        ∃ a b, sorted[count / 2 - 1]? = some a ∧ sorted[count / 2]? = some b ∧
          m = (a + b) / 2)) ∧
    (∀ b0 b1 b2 b3 : ℚ,
      draw_graph_median [1, 2, 3, 4] 4 [b0, b1, b2, b3] = some ([1, 2, 3, 4], 5 / 2)) ∧
    (∀ b0 b1 b2 : ℚ,
      draw_graph_median [5, 1, 3] 3 [b0, b1, b2] = some ([5, 1, 3], 3)) := by
  refine ⟨?_, ?_, ?_⟩
  · have hcopy := copy_loop_all values buf count hlen hbuf
    have hsort := gsl_sort_float_all values count hlen
    have hsl : (values.insertionSort (fun a b => a ≤ b)).length = count := by
      rw [List.length_insertionSort, hlen]
    by_cases hodd : count % 2 = 1
    · have hlt : count / 2 < (values.insertionSort (fun a b => a ≤ b)).length := by omega
      refine ⟨(values.insertionSort (fun a b => a ≤ b))[count / 2],
        values.insertionSort (fun a b => a ≤ b), ?_,
        List.sorted_insertionSort _ values, List.perm_insertionSort _ values,
        fun _ => List.getElem?_eq_getElem hlt, fun h => by omega⟩
      simp only [draw_graph_median, hcopy, hsort, gsl_stats_float_median_from_sorted_data,
        if_pos hodd, List.getElem?_eq_getElem hlt]
    · have hl1 : count / 2 - 1 < (values.insertionSort (fun a b => a ≤ b)).length := by omega
      have hl2 : count / 2 < (values.insertionSort (fun a b => a ≤ b)).length := by omega
      refine ⟨((values.insertionSort (fun a b => a ≤ b))[count / 2 - 1] +
          (values.insertionSort (fun a b => a ≤ b))[count / 2]) / 2,
        values.insertionSort (fun a b => a ≤ b), ?_,
        List.sorted_insertionSort _ values, List.perm_insertionSort _ values,
        fun h => absurd h hodd,
        fun _ => ⟨_, _, List.getElem?_eq_getElem hl1, List.getElem?_eq_getElem hl2, rfl⟩⟩
      simp only [draw_graph_median, hcopy, hsort, gsl_stats_float_median_from_sorted_data,
        if_neg hodd, List.getElem?_eq_getElem hl1, List.getElem?_eq_getElem hl2]
  · intro b0 b1 b2 b3
    norm_num [draw_graph_median, copy_loop, wrq, gsl_sort_float,
      gsl_stats_float_median_from_sorted_data, List.insertionSort, List.orderedInsert]
  · intro b0 b1 b2
    norm_num [draw_graph_median, copy_loop, wrq, gsl_sort_float,
      gsl_stats_float_median_from_sorted_data, List.insertionSort, List.orderedInsert]

/-- Witness for C13: the values `[5, 1, 3]` and a fresh block holding `[7, 7, 7]`. -/
theorem median_of_sorted_copy_witness :
    ∃ (m : ℚ) (sorted : List ℚ), draw_graph_median [5, 1, 3] 3 [7, 7, 7] = some ([5, 1, 3], m) ∧
      sorted.Sorted (fun a b => a ≤ b) ∧ sorted.Perm [5, 1, 3] ∧
      (3 % 2 = 1 → sorted[3 / 2]? = some m) ∧
      (3 % 2 = 0 →
        ∃ a b, sorted[3 / 2 - 1]? = some a ∧ sorted[3 / 2]? = some b ∧ m = (a + b) / 2) :=
  (median_of_sorted_copy [5, 1, 3] [7, 7, 7] 3 (by decide) (by decide) (by decide)).1

/-- C14: the eviction step of the append branch of `sensor_visualizer.c` (shift
loop and `reading_count--`) on a buffer of `n >= 1` readings: afterwards
`reading_count = n - 1`, and for every `i < n - 1` the new `readings[i]` is the
old `readings[i+1]`; the buffer is the old buffer without its first element, in
the same order. -/
theorem eviction_removes_front (s : State) (h1 : 1 ≤ s.reading_count)
    (h2 : s.reading_count ≤ s.readings.length) :
    ∃ s1, evict s = some s1 ∧
      s1.reading_count = s.reading_count - 1 ∧
      s1.readings.length = s.readings.length ∧
      s1.last_reading_timestamp = s.last_reading_timestamp ∧
      (∀ i, i < s.reading_count - 1 →
        ∃ a, s.readings[i + 1]? = some a ∧ s1.readings[i]? = some a) ∧
      s1.items = s.items.tail := by
  obtain ⟨s1, e1, e2, e3, e4, e5⟩ := evict_spec s h1 h2
  refine ⟨s1, e1, e3, e2, e4, ?_, by rw [e5, List.drop_one]⟩
  intro i hi
  have hlt : i + 1 < s.readings.length := by omega
  refine ⟨s.readings[i + 1], List.getElem?_eq_getElem hlt, ?_⟩
  have ha : s1.readings[i]? = s1.items[i]? := by
    simp only [State.items]
    rw [List.getElem?_take, if_pos (by omega)]
  rw [ha, e5, List.getElem?_drop]
  simp only [State.items]
  rw [List.getElem?_take, if_pos (by omega), Nat.add_comm 1 i, List.getElem?_eq_getElem hlt]

/-- Witness for C14: the full buffer `[1, 2, 3]` becomes `[2, 3]`. -/
theorem eviction_removes_front_witness :
    ∃ s1, evict ⟨[rd 1, rd 2, rd 3], 3, 3⟩ = some s1 ∧
      s1.reading_count = 3 - 1 ∧
      s1.readings.length = 3 ∧
      s1.last_reading_timestamp = 3 ∧
      (∀ i, i < 3 - 1 →
        ∃ a, [rd 1, rd 2, rd 3][i + 1]? = some a ∧ s1.readings[i]? = some a) ∧
      s1.items = (State.items ⟨[rd 1, rd 2, rd 3], 3, 3⟩).tail :=
  eviction_removes_front ⟨[rd 1, rd 2, rd 3], 3, 3⟩ (by decide) (by decide)

/-- C15: in the append branch of `load_sensor_data` of `sensor_gsl_visualizer.c`
the eviction block is never executed: the loop body only runs under the loop
condition `reading_count < MAX_READINGS`, so the loop computes what the loop
without the eviction block computes, on every state and every batch; and on a
state with `reading_count == MAX_READINGS` (`cap >= 1`) the call accepts no row
and leaves `readings`, `reading_count` and `last_reading_timestamp` unchanged. -/
theorem Gsl.eviction_unreachable (cap : Nat) (s : State) (f : Fetch) :
    (∀ (rows : List SensorReading) (t : State),
      Gsl.append_loop cap rows t = Gsl.append_loop_without_eviction cap rows t) ∧
    (1 ≤ cap → s.reading_count = cap →
      Gsl.load_sensor_data_full cap s f = some (s, []) ∧
      Gsl.load_sensor_data cap s f = some s) := by
  constructor
  · intro rows
    induction rows with
    | nil => intro t; rfl
    | cons row rest ih =>
      intro t
      by_cases hroom : t.reading_count < cap
      · by_cases hst : row.timestamp ≤ t.last_reading_timestamp
        · simp only [Gsl.append_loop, Gsl.append_loop_without_eviction, if_pos hroom,
            if_pos hst, ih]
        · have hnf : ¬ (t.reading_count ≥ cap) := by omega
          simp only [Gsl.append_loop, Gsl.append_loop_without_eviction, if_pos hroom,
            if_neg hst, if_neg hnf, ih]
      · simp only [Gsl.append_loop, Gsl.append_loop_without_eviction, if_neg hroom]
  · intro hcap hfull
    have h := Gsl.load_full_buffer cap s f (by omega) (by omega)
    exact ⟨h, by simp only [Gsl.load_sensor_data, h, Option.map_some']⟩

/-- Witness for C15: array size 2, the full buffer `[1, 2]` and the batch
`[3, 4]`. -/
theorem Gsl.eviction_unreachable_witness :
    Gsl.load_sensor_data_full 2 ⟨[rd 1, rd 2], 2, 2⟩
        ⟨some 4, SQLITE_OK, [rd 3, rd 4], SQLITE_DONE⟩ = some (⟨[rd 1, rd 2], 2, 2⟩, []) ∧
      Gsl.load_sensor_data 2 ⟨[rd 1, rd 2], 2, 2⟩
        ⟨some 4, SQLITE_OK, [rd 3, rd 4], SQLITE_DONE⟩ = some ⟨[rd 1, rd 2], 2, 2⟩ :=
  (Gsl.eviction_unreachable 2 ⟨[rd 1, rd 2], 2, 2⟩
    ⟨some 4, SQLITE_OK, [rd 3, rd 4], SQLITE_DONE⟩).2 (by decide) (by decide)
